import Mathlib

/-!
Verification of the inventory-distribution engine.

Shallow embedding of the core allocation code of the repository:

* src/core/distributor.py  (StockDistributor: push distribution)
* src/core/balancer.py     (InventoryBalancer: pair-aware rebalancing)
* src/core/models.py       (data model, sales-priority resolution)
* src/core/sales_parser.py (product-code extraction)
* src/core/config.py       (constants, store balance pairs)

Spreadsheet rows are modelled as lists of named cells; a cell is either
missing (NaN), blank, the known placeholder label, some other non-numeric
text, or an integer.  Numeric cells are modelled as integers (the source
converts through float and truncates; fractional cells are out of scope
for every claim considered here).  DataFrames are a column list plus a row
list; the pandas index of a row is its position in the list.

A few helper functions are imported by src/core/balancer.py from
src/core/models.py but are absent from the copy of models.py in the
repository (count_sizes_with_stock, should_apply_min_sizes_rule,
DistributionConfig.store_balance_pairs / get_paired_store).  These are
modelled from the specification and from the comments in
src/core/config.py; each such definition is marked in its doc comment.
-/

set_option maxHeartbeats 1000000
set_option maxRecDepth 10000

/-- Cell values as they reach the quantity normalizer.  numCell carries the
integer value of a numeric cell; nanCell models a missing value (NaN);
blankCell the empty string; placeholderCell the literal label
"Остаток на складе"; textCell any other non-numeric text. -/
inductive Cell where
  | nanCell : Cell
  | blankCell : Cell
  | placeholderCell : Cell
  | textCell : String → Cell
  | numCell : Int → Cell
deriving DecidableEq

/-- Embedding of get_stock_value (src/core/distributor.py lines 26-33):
NaN, empty string and the placeholder label map to 0; non-numeric text
fails int(float(...)) and maps to 0; a numeric cell keeps its integer
value (including negative values). -/
def getStockValue : Cell → Int
  | Cell.nanCell => 0
  | Cell.blankCell => 0
  | Cell.placeholderCell => 0
  | Cell.textCell _ => 0
  | Cell.numCell n => n

/-- Cells that the source normalizes to zero: everything except a numeric
cell (blank, missing, placeholder, and other non-numeric text). -/
def Cell.isNonNumeric : Cell → Bool
  | Cell.numCell _ => false
  | _ => true

/-- Python-style whitespace test for the characters relevant to \s. -/
def isPyWs (c : Char) : Bool := c = ' ' || c = '\t' || c = '\n' || c = '\r'

/-- ASCII digit test (the store labels use ASCII digits). -/
def isAsciiDigit (c : Char) : Bool := '0' ≤ c && c ≤ '9'

/-- Numeric value of a digit run. -/
def digitsToNat (cs : List Char) : Nat :=
  cs.foldl (fun n c => 10 * n + (c.toNat - '0'.toNat)) 0

/-- Embedding of extract_store_id (src/core/models.py lines 9-26).  The
regex is matched iff the string starts with a digit run of length d with z
leading zeros such that d ≥ 5 and d - z ≤ 7, followed by at least one
whitespace character and then a non-whitespace character; the captured
group keeps all non-zero-prefix digits, so its integer value is the value
of the whole digit run. -/
def extractStoreId (s : String) : Option Nat :=
  let cs := s.data
  let run := cs.takeWhile isAsciiDigit
  let rest := cs.drop run.length
  let z := (run.takeWhile (· = '0')).length
  let d := run.length
  if 5 ≤ d && d - z ≤ 7 && isPyWs (rest.headD 'x') && !(rest.dropWhile isPyWs).isEmpty then
    some (digitsToNat run)
  else none

/-- Replacement-or-append update of an association list, mirroring a
Python dict assignment (lookup position of an existing key is kept). -/
def setAssoc (l : List (Nat × String)) (k : Nat) (v : String) : List (Nat × String) :=
  if l.any (fun p => p.1 = k) then
    l.map (fun p => if p.1 = k then (k, v) else p)
  else l ++ [(k, v)]

/-- Lookup in the store-id map, mirroring dict.get. -/
def lookupId (l : List (Nat × String)) (k : Nat) : Option String :=
  (l.find? (fun p => p.1 = k)).map (fun p => p.2)

/-- Embedding of build_store_id_map (src/core/models.py lines 29-44).
Entries whose extracted id is falsy in Python (absent, or the integer 0)
are not added. -/
def buildStoreIdMap (storeNames : List String) : List (Nat × String) :=
  storeNames.foldl
    (fun m name =>
      match extractStoreId name with
      | some id => if id ≠ 0 then setAssoc m id name else m
      | none => m)
    []

/-- Sales of one store for one product (models.StoreSales). -/
structure StoreSales where
  store_id : Nat
  store_name : String
  quantity : Int
deriving DecidableEq

/-- Sales of one product across stores (models.ProductSalesData; the
raw_name and total_quantity fields play no role in priority resolution
and are omitted). -/
structure ProductSalesData where
  product_code : String
  store_sales : List StoreSales
deriving DecidableEq

/-- Position used as sort tiebreaker: index of the canonical store name in
the fallback priority list, or its length when absent
(list.index with a fallback, as in get_priority_order). -/
def fallbackIdx (fallback : List String) (idMap : List (Nat × String)) (s : StoreSales) : Nat :=
  let name := (lookupId idMap s.store_id).getD ""
  fallback.indexOf name

/-- Sort relation of get_priority_order: sales descending, ties broken by
ascending position in the fallback priority list. -/
def salesLe (fallback : List String) (idMap : List (Nat × String)) (a b : StoreSales) : Prop :=
  b.quantity < a.quantity ∨
    (a.quantity = b.quantity ∧ fallbackIdx fallback idMap a ≤ fallbackIdx fallback idMap b)

instance (fallback : List String) (idMap : List (Nat × String)) :
    DecidableRel (salesLe fallback idMap) := by
  intro a b
  unfold salesLe
  exact inferInstance

/-- Stable sort of the store sales by the get_priority_order key
(Python sorted is stable; insertionSort inserts before equal elements of
the already-sorted suffix, which preserves the original order of
key-equal entries). -/
def sortedStoreSales (p : ProductSalesData) (fallback : List String)
    (idMap : List (Nat × String)) : List StoreSales :=
  List.insertionSort (salesLe fallback idMap) p.store_sales

/-- Embedding of ProductSalesData.get_priority_order
(src/core/models.py lines 63-99): sort by (sales desc, fallback position),
then map ids through the canonical store map, dropping ids that resolve to
nothing or to the empty string (falsy in Python). -/
def getPriorityOrder (p : ProductSalesData) (fallback : List String)
    (idMap : List (Nat × String)) : List String :=
  (sortedStoreSales p fallback idMap).filterMap
    (fun s =>
      match lookupId idMap s.store_id with
      | some name => if name = "" then none else some name
      | none => none)

/-- Container for all sales data (models.SalesPriorityData). -/
structure SalesPriorityData where
  products : List (String × ProductSalesData)
deriving DecidableEq

/-- Embedding of SalesPriorityData.get_product_priority
(src/core/models.py lines 107-133). -/
def getProductPriorityData (sd : SalesPriorityData) (code : String)
    (fallback : List String) (idMap : List (Nat × String)) :
    List String × Bool :=
  match (sd.products.find? (fun p => p.1 = code)).map (fun p => p.2) with
  | some pd =>
    let priority := getPriorityOrder pd fallback idMap
    if priority ≠ [] then (priority, true) else (fallback, false)
  | none => (fallback, false)

/-- Characters after the first occurrence of a separator, or none when
the separator is absent (Python s.split(sep, 1) with a single char). -/
def afterFirstChar (sep : Char) : List Char → Option (List Char)
  | [] => none
  | c :: rest => if c = sep then some rest else afterFirstChar sep rest

/-- Embedding of extract_product_code_from_input
(src/core/sales_parser.py lines 46-70): everything after the first
underscore, if nonempty. -/
def extractProductCodeFromInput (s : String) : Option String :=
  match afterFirstChar '_' s.data with
  | none => none
  | some after => if after.isEmpty then none else some (String.mk after)

/-- Configuration (models.DistributionConfig).  The store_balance_pairs
field is referenced by src/core/balancer.py and by the tests but is absent
from the copy of models.py in the repository; it is modelled from the
spec (unordered pairs of numeric store codes) and src/core/config.py. -/
structure DistributionConfig where
  store_priority : List String := []
  excluded_stores : List String := []
  balance_threshold : Int := 2
  store_balance_pairs : List (String × String) := []
deriving DecidableEq

/-- Embedding of DistributionConfig.active_stores: priority order with
excluded stores removed. -/
def DistributionConfig.active_stores (cfg : DistributionConfig) : List String :=
  cfg.store_priority.filter (fun s => s ∉ cfg.excluded_stores)

/-- Modelled from the spec: DistributionConfig.get_paired_store is called
by src/core/balancer.py but missing from src/core/models.py.  Per the
spec, pairing is a set of unordered pairs of numeric store codes and is
symmetric (A↔B implies B↔A); the partner of a code is the other member of
the first pair containing it, if any. -/
def DistributionConfig.getPairedStore (cfg : DistributionConfig) (code : String) : Option String :=
  match cfg.store_balance_pairs.find? (fun p => p.1 = code ∨ p.2 = code) with
  | some p => some (if p.1 = code then p.2 else p.1)
  | none => none

/-- First whitespace-token of a store label (Python name.split()[0];
split() drops leading whitespace and splits on whitespace runs). -/
def firstToken (s : String) : String :=
  String.mk ((s.data.dropWhile isPyWs).takeWhile (fun c => !isPyWs c))

/-- Embedding of InventoryBalancer._find_store_by_code
(src/core/balancer.py lines 136-150): first store whose label starts with
the code followed by a space. -/
def findStoreByCode (code : String) (stores : List String) : Option String :=
  stores.find? (fun s => List.isPrefixOf (code.data ++ [' ']) s.data)

/-- One transfer decision (models.Transfer). -/
structure Transfer where
  sender : String
  receiver : String
  quantity : Int
deriving DecidableEq

/-- A store considered but skipped (models.SkippedStore). -/
structure SkippedStore where
  store_name : String
  reason : String
  existing_qty : Int
deriving DecidableEq

/-- Preview of transfers for one row (models.TransferPreview). -/
structure TransferPreview where
  row_index : Nat
  product_name : String
  variant : String
  transfers : List Transfer := []
  skipped_stores : List SkippedStore := []
  skip_reason : Option String := none
  uses_standard_distribution : Bool := false
  uses_fallback_priority : Bool := false
  min_sizes_skipped : Bool := false
deriving DecidableEq

/-- Total quantity of a preview (TransferPreview.total_quantity). -/
def TransferPreview.total_quantity (p : TransferPreview) : Int :=
  (p.transfers.map (fun t => t.quantity)).sum

/-- One input spreadsheet row.  The Номенклатура cell is none when NaN;
variant is the stringified Характеристика ("" when NaN); every other
column (store columns and the two source-pool columns) lives in cells. -/
structure Row where
  product : Option String
  variant : String
  cells : List (String × Cell)
deriving DecidableEq

/-- Input table: the column list of the DataFrame plus its rows; the
pandas index of a row is its position. -/
structure DF where
  cols : List String
  rows : List Row
deriving DecidableEq

/-- Quantity of a named column in a row: row.get(col, 0) normalized by
get_stock_value. -/
def Row.qty (r : Row) (col : String) : Int :=
  getStockValue (((r.cells.find? (fun p => p.1 = col)).map (fun p => p.2)).getD Cell.nanCell)

/-- Row-kept predicate of both previews: Номенклатура present and not
the empty string. -/
def keptProduct (r : Row) : Option String :=
  match r.product with
  | none => none
  | some p => if p = "" then none else some p

/-- Filtered rows with their original pandas indexes. -/
def filteredRows (df : DF) : List (Nat × Row) :=
  df.rows.enum.filter (fun ir => (keptProduct ir.2).isSome)

/-- Stores of the configured priority that exist as DataFrame columns. -/
def availableStores (cfg : DistributionConfig) (df : DF) : List String :=
  cfg.store_priority.filter (fun s => s ∈ df.cols)

/-- Result triple of StockDistributor._get_product_priority. -/
structure PriorityResult where
  active : List String
  usesFallback : Bool
  full : List String
deriving DecidableEq

/-- Python loop appending the elements of extra that are not already in
base, in order (used twice in _get_product_priority). -/
def appendMissing (base extra : List String) : List String :=
  extra.foldl (fun acc s => if s ∈ acc then acc else acc ++ [s]) base

/-- Embedding of StockDistributor._get_product_priority
(src/core/distributor.py lines 55-113). -/
def getProductPriority (cfg : DistributionConfig) (sales : Option SalesPriorityData)
    (productName : String) (avail : List String) : PriorityResult :=
  let fullPriority := cfg.store_priority.filter (fun s => s ∈ avail)
  let fallback := cfg.active_stores.filter (fun s => s ∈ avail)
  match sales with
  | none => ⟨fallback, false, fullPriority⟩
  | some sd =>
    match extractProductCodeFromInput productName with
    | none => ⟨fallback, true, fullPriority⟩
    | some code =>
      let pf := getProductPriorityData sd code cfg.store_priority (buildStoreIdMap cfg.store_priority)
      if pf.2 then
        let activeP := pf.1.filter (fun s => s ∈ avail ∧ s ∈ cfg.active_stores)
        let fullSales := pf.1.filter (fun s => s ∈ avail)
        ⟨appendMissing activeP fallback, false, appendMissing fullSales fullPriority⟩
      else ⟨fallback, true, fullPriority⟩

/-- Sales-based priority list actually used by _get_product_priority for
a product, when the product-code extraction succeeds and the product is
found in the sales data with a nonempty ranking; none otherwise (the
static fallback paths). -/
def resolvedSalesPriority (cfg : DistributionConfig) (sales : Option SalesPriorityData)
    (productName : String) : Option (List String) :=
  match sales with
  | none => none
  | some sd =>
    match extractProductCodeFromInput productName with
    | none => none
    | some code =>
      let pf := getProductPriorityData sd code cfg.store_priority (buildStoreIdMap cfg.store_priority)
      if pf.2 then some pf.1 else none

/-- Source selector of the push distribution ("stock" or "photo"). -/
inductive Source where
  | stock : Source
  | photo : Source
deriving DecidableEq

/-- Embedding of StockDistributor._get_source_column with the default
column bindings of DistributionConfig. -/
def sourceColumn : Source → String
  | Source.stock => "Сток"
  | Source.photo => "Фото склад"

/-- Embedding of StockDistributor._get_source_name. -/
def sourceName : Source → String
  | Source.stock => "Сток"
  | Source.photo => "Фото"

/-- Analyzed data of one input row inside a product group
(_analyze_product_inventory): pandas index, variant, normalized source
quantity and the snapshot of store quantities over the available stores. -/
structure PRowData where
  idx : Nat
  variant : String
  srcQty : Int
  storeQ : List (String × Int)
deriving DecidableEq

/-- One product family: name plus its rows in input order. -/
structure PGroup where
  product : String
  rows : List PRowData
deriving DecidableEq

/-- Quantity of a store in an analyzed row (dict .get(store, 0)). -/
def lookupQ (l : List (String × Int)) (s : String) : Int :=
  (((l.find? (fun p => p.1 = s)).map (fun p => p.2)).getD 0)

/-- Snapshot of store quantities of a row over the available stores. -/
def storeSnapshot (avail : List String) (r : Row) : List (String × Int) :=
  avail.map (fun s => (s, r.qty s))

/-- Analyzed row record for one kept input row. -/
def mkPRowData (srcCol : String) (avail : List String) (ir : Nat × Row) : PRowData :=
  ⟨ir.1, ir.2.variant, ir.2.qty srcCol, storeSnapshot avail ir.2⟩

/-- Append a row to its product group, creating the group at the end on
first occurrence (defaultdict insertion order). -/
def addToGroups (groups : List PGroup) (p : String) (rd : PRowData) : List PGroup :=
  if groups.any (fun g => g.product = p) then
    groups.map (fun g => if g.product = p then ⟨g.product, g.rows ++ [rd]⟩ else g)
  else groups ++ [⟨p, [rd]⟩]

/-- Embedding of StockDistributor._analyze_product_inventory
(src/core/distributor.py lines 125-175): group the kept rows by product
name, keeping input order both of groups and of rows inside a group. -/
def analyzeProducts (srcCol : String) (avail : List String)
    (rows : List (Nat × Row)) : List PGroup :=
  rows.foldl
    (fun groups ir =>
      match keptProduct ir.2 with
      | none => groups
      | some p => addToGroups groups p (mkPRowData srcCol avail ir))
    []

/-- Variants of a product family that are in stock at the source, in row
order, duplicates kept (sizes_in_stock is a Python list, not a set). -/
def sizesInStock (rows : List PRowData) : List String :=
  (rows.filter (fun rd => 0 < rd.srcQty)).map (fun rd => rd.variant)

/-- Embedding of StockDistributor._get_store_sizes_count
(src/core/distributor.py lines 177-183): number of distinct variants of
the family that the store holds with positive quantity. -/
def storeSizesCount (rows : List PRowData) (store : String) : Nat :=
  (((rows.filter (fun rd => 0 < lookupQ rd.storeQ store)).map (fun rd => rd.variant)).dedup).length

/-- Mutable working state of one push-preview pass: per-row remaining
source stock, accumulated transfers, skipped stores, first skip reason
and the min-sizes-skip flag, all keyed by pandas index. -/
structure PushState where
  remaining : Nat → Int
  transfers : Nat → List Transfer
  skipped : Nat → List SkippedStore
  reason : Nat → Option String
  minFlag : Nat → Bool

/-- Pointwise update of an index-keyed map. -/
def updAt {α : Type} (f : Nat → α) (i : Nat) (v : α) : Nat → α :=
  fun j => if j = i then v else f j

/-- Append one transfer to a row and decrement its remaining stock. -/
def addTransfer (st : PushState) (i : Nat) (t : Transfer) : PushState :=
  { st with
    transfers := updAt st.transfers i (st.transfers i ++ [t]),
    remaining := updAt st.remaining i (st.remaining i - 1) }

/-- Append one skipped-store record to a row. -/
def addSkip (st : PushState) (i : Nat) (s : SkippedStore) : PushState :=
  { st with skipped := updAt st.skipped i (st.skipped i ++ [s]) }

/-- Set the row skip reason if not already set (first reason wins). -/
def setReason (st : PushState) (i : Nat) (msg : String) : PushState :=
  match st.reason i with
  | some _ => st
  | none => { st with reason := updAt st.reason i (some msg) }

/-- Mark the row as skipped by the min-sizes rule. -/
def setMinFlag (st : PushState) (i : Nat) : PushState :=
  { st with minFlag := updAt st.minFlag i true }

/-- Skip-reason message of the min-sizes veto, with the available count. -/
def minSizesMsg (n : Nat) : String :=
  "Недостаточно размеров (есть " ++ toString n ++ ", нужно ≥3)"

/-- Processing of one candidate store for one product family inside
StockDistributor.preview (src/core/distributor.py lines 253-351). -/
def processStore (cfg : DistributionConfig) (srcName : String) (g : PGroup)
    (availCnt : Nat) (st : PushState) (store : String) : PushState :=
  if store ∈ cfg.excluded_stores then
    g.rows.foldl
      (fun st rd =>
        if lookupQ rd.storeQ store = 0 then addSkip st rd.idx ⟨store, "excluded", 0⟩ else st)
      st
  else if storeSizesCount g.rows store ≤ 1 ∧ 4 ≤ g.rows.length then
    if availCnt < 3 then
      g.rows.foldl
        (fun st rd =>
          if lookupQ rd.storeQ store = 0 then
            addSkip (setMinFlag (setReason st rd.idx (minSizesMsg availCnt)) rd.idx)
              rd.idx ⟨store, "min_sizes", 0⟩
          else st)
        st
    else
      let transferable := g.rows.filter
        (fun rd => 0 < rd.srcQty ∧ lookupQ rd.storeQ store = 0 ∧ 0 < st.remaining rd.idx)
      if 3 ≤ transferable.length then
        transferable.foldl
          (fun st rd =>
            if 0 < st.remaining rd.idx then addTransfer st rd.idx ⟨srcName, store, 1⟩ else st)
          st
      else st
  else
    g.rows.foldl
      (fun st rd =>
        let q := lookupQ rd.storeQ store
        if 0 < q then addSkip st rd.idx ⟨store, "has_stock", q⟩
        else if 0 < st.remaining rd.idx then addTransfer st rd.idx ⟨srcName, store, 1⟩
        else st)
      st

/-- Processing of one product family: resolve its priority and walk the
full priority list. -/
def processProduct (cfg : DistributionConfig) (sales : Option SalesPriorityData)
    (srcName : String) (avail : List String) (st : PushState) (g : PGroup) : PushState :=
  let pr := getProductPriority cfg sales g.product avail
  (pr.full).foldl (processStore cfg srcName g (sizesInStock g.rows).length) st

/-- Initial push state: remaining stock set per row from the analyzed
source quantities (the nested Python loops visit the groups and then the
rows of each group, i.e. the flattened row list), all ledgers empty. -/
def initPushState (groups : List PGroup) : PushState :=
  { remaining :=
      (groups.flatMap (fun g => g.rows)).foldl (fun f rd => updAt f rd.idx rd.srcQty)
        (fun _ => 0),
    transfers := fun _ => [],
    skipped := fun _ => [],
    reason := fun _ => none,
    minFlag := fun _ => false }

/-- Preview record of one analyzed row assembled from the final state
(creation of missing previews plus the per-row status fields,
src/core/distributor.py lines 353-383). -/
def mkPreview (cfg : DistributionConfig) (sales : Option SalesPriorityData)
    (avail : List String) (hdr : Nat) (st : PushState) (g : PGroup)
    (rd : PRowData) : TransferPreview :=
  { row_index := hdr + 3 + rd.idx,
    product_name := g.product,
    variant := rd.variant,
    transfers := st.transfers rd.idx,
    skipped_stores := st.skipped rd.idx,
    skip_reason := st.reason rd.idx,
    uses_standard_distribution := g.rows.length < 4,
    uses_fallback_priority :=
      (getProductPriority cfg sales g.product avail).usesFallback && sales.isSome,
    min_sizes_skipped := st.minFlag rd.idx }

/-- Product groups of one push pass. -/
def pushGroups (cfg : DistributionConfig) (df : DF) (source : Source) : List PGroup :=
  analyzeProducts (sourceColumn source) (availableStores cfg df) (filteredRows df)

/-- Final state of the push pass: the product-by-product walk of
StockDistributor.preview. -/
def pushFinal (cfg : DistributionConfig) (sales : Option SalesPriorityData)
    (df : DF) (source : Source) : PushState :=
  (pushGroups cfg df source).foldl
    (processProduct cfg sales (sourceName source) (availableStores cfg df))
    (initPushState (pushGroups cfg df source))

/-- Embedding of StockDistributor.preview
(src/core/distributor.py lines 185-387).  The output previews are sorted
by row_index; as row_index = header_row + 3 + pandas index is strictly
increasing in the pandas index, emitting them in input-row order and then
sorting equals the source's sort of the previews dictionary. -/
def pushPreview (cfg : DistributionConfig) (sales : Option SalesPriorityData)
    (df : DF) (source : Source) (hdr : Nat) : List TransferPreview :=
  List.insertionSort (fun p q => p.row_index ≤ q.row_index)
    ((pushGroups cfg df source).flatMap
      (fun g => g.rows.map
        (mkPreview cfg sales (availableStores cfg df) hdr (pushFinal cfg sales df source) g)))

/-- Generic pointwise update of a function-backed map. -/
def updKey {κ α : Type} [DecidableEq κ] (f : κ → α) (k : κ) (v : α) : κ → α :=
  fun j => if j = k then v else f j

/-- Analyzed data of one row inside a balancer product group
(_analyze_products): pandas index, variant and store-quantity snapshot. -/
structure BRowData where
  idx : Nat
  variant : String
  storeQ : List (String × Int)
deriving DecidableEq

/-- One product family of the balancer analysis: rows in input order plus
the total size count (the dict default used by preview carries
total_sizes = 1 with no rows, hence the explicit field). -/
structure BGroup where
  product : String
  rows : List BRowData
  totalSizes : Nat
deriving DecidableEq

/-- Append a row to its balancer product group (defaultdict insertion
order), keeping totalSizes = number of rows. -/
def addToBGroups (groups : List BGroup) (p : String) (rd : BRowData) : List BGroup :=
  if groups.any (fun g => g.product = p) then
    groups.map (fun g =>
      if g.product = p then ⟨g.product, g.rows ++ [rd], g.rows.length + 1⟩ else g)
  else groups ++ [⟨p, [rd], 1⟩]

/-- Embedding of InventoryBalancer._analyze_products
(src/core/balancer.py lines 45-88). -/
def analyzeBProducts (avail : List String) (rows : List (Nat × Row)) : List BGroup :=
  rows.foldl
    (fun groups ir =>
      match keptProduct ir.2 with
      | none => groups
      | some p => addToBGroups groups p ⟨ir.1, ir.2.variant, storeSnapshot avail ir.2⟩)
    []

/-- Modelled from the spec: count_sizes_with_stock is imported by
src/core/balancer.py from src/core/models.py but missing there.  Per spec
§4.1 it counts the distinct sizes of the family that the store holds with
quantity > 0, exactly as StockDistributor._get_store_sizes_count does. -/
def countSizesWithStock (rows : List BRowData) (store : String) : Nat :=
  (((rows.filter (fun rd => 0 < lookupQ rd.storeQ store)).map (fun rd => rd.variant)).dedup).length

/-- Modelled from the spec: should_apply_min_sizes_rule is imported by
src/core/balancer.py from src/core/models.py but missing there.  Per spec
§4.1 and the comments in src/core/config.py the rule activates iff the
receiving store has at most one size of the product and the product has at
least four sizes in total. -/
def shouldApplyMinSizesRule (sizesCount totalSizes : Nat) : Prop :=
  sizesCount ≤ 1 ∧ 4 ≤ totalSizes

instance (sizesCount totalSizes : Nat) :
    Decidable (shouldApplyMinSizesRule sizesCount totalSizes) := by
  unfold shouldApplyMinSizesRule
  exact inferInstance

/-- Min-sizes decision for a (product, partner) pair, evaluated from the
initial store quantities as in src/core/balancer.py lines 255-275: when
the rule applies, require at least MIN_SIZES_TO_ADD = 3 sizes in which
the sender holds more than the threshold and the partner holds zero. -/
def computePartnerDecision (thr : Int) (g : BGroup) (sender partner : String) : Bool :=
  if shouldApplyMinSizesRule (countSizesWithStock g.rows partner) g.totalSizes then
    3 ≤ ((g.rows.filter
      (fun rd => thr < lookupQ rd.storeQ sender ∧ lookupQ rd.storeQ partner = 0)).length)
  else true

/-- Cross-row mutable state of one balancing pass: the working inventory
keyed by (product, variant, store) and the cached (product, partner)
min-sizes decisions. -/
structure BalState where
  working : String × String × String → Int
  decisions : List ((String × String) × Bool)

/-- Cached decision lookup. -/
def BalState.decisionFor (st : BalState) (key : String × String) : Option Bool :=
  ((st.decisions.find? (fun e => e.1 = key)).map (fun e => e.2))

/-- Decision caching of src/core/balancer.py lines 252-275: evaluate the
min-sizes decision for (product, partner) from the initial analysis data
on first encounter, and keep the cached entry afterwards. -/
def cacheDecision (cfg : DistributionConfig) (pn : String) (g : BGroup)
    (senderName ps : String) (st : BalState) : BalState :=
  if (st.decisionFor (pn, ps)).isSome then st
  else
    { st with decisions :=
        st.decisions ++ [((pn, ps), computePartnerDecision cfg.balance_threshold g senderName ps)] }

/-- Processing of one excess-holding sender of one row
(src/core/balancer.py lines 234-301): optionally one unit to the paired
partner, then the remaining excess as a single transfer to the pool. -/
def processSender (cfg : DistributionConfig) (prodName variantStr : String)
    (g : BGroup) (productStores : List String) (st : BalState)
    (sq : String × Int) : BalState × List Transfer :=
  let excess := sq.2 - cfg.balance_threshold
  if excess ≤ 0 then (st, [])
  else
    let senderCode := firstToken sq.1
    let step1 : BalState × List Transfer × Int :=
      match cfg.getPairedStore senderCode with
      | none => (st, [], excess)
      | some pc =>
        match findStoreByCode pc productStores with
        | none => (st, [], excess)
        | some ps =>
          if ps ∈ cfg.excluded_stores then (st, [], excess)
          else
            let key := (prodName, ps)
            let st1 := cacheDecision cfg prodName g sq.1 ps st
            if (st1.decisionFor key).getD false then
              if st1.working (prodName, variantStr, ps) = 0 ∧ 0 < excess then
                ({ st1 with
                    working := updKey st1.working (prodName, variantStr, ps) 1 },
                  [⟨senderCode, ps, 1⟩], excess - 1)
              else (st1, [], excess)
            else (st1, [], excess)
    let toPool : List Transfer :=
      if 0 < step1.2.2 then [⟨firstToken sq.1, "Сток", step1.2.2⟩] else []
    (step1.1, step1.2.1 ++ toPool)

/-- Descending sort relation on (store, quantity) pairs:
stores_with_excess.sort(key=quantity, reverse=True), a stable descending
sort. -/
def invDesc (a b : String × Int) : Prop := b.2 ≤ a.2

instance : DecidableRel invDesc := by
  intro a b
  unfold invDesc
  exact inferInstance

instance : IsTotal (String × Int) invDesc := by
  constructor
  intro a b
  unfold invDesc
  omega

instance : IsTrans (String × Int) invDesc := by
  constructor
  intro a b c h1 h2
  unfold invDesc at *
  omega

/-- Store inventory of one row, in first-occurrence order of the
product priority (a Python dict keyed by store name). -/
def rowInventory (productStores : List String) (r : Row) : List (String × Int) :=
  (appendMissing [] productStores).map (fun s => (s, r.qty s))

/-- Processing of one kept row of InventoryBalancer.preview
(src/core/balancer.py lines 193-303). -/
def processRow (cfg : DistributionConfig) (sales : Option SalesPriorityData)
    (avail : List String) (pdata : List BGroup) (hdr : Nat) (st : BalState)
    (ir : Nat × Row) : BalState × TransferPreview :=
  let prodName := (keptProduct ir.2).getD ""
  let variantStr := ir.2.variant
  let pr := getProductPriority cfg sales prodName avail
  let g := (pdata.find? (fun g => g.product = prodName)).getD ⟨prodName, [], 1⟩
  let inv := rowInventory pr.active ir.2
  let sorted := List.insertionSort invDesc
    (inv.filter (fun p => cfg.balance_threshold < p.2))
  let res := sorted.foldl
    (fun (acc : BalState × List Transfer) sq =>
      let stp := processSender cfg prodName variantStr g pr.active acc.1 sq
      (stp.1, acc.2 ++ stp.2))
    (st, [])
  (res.1,
    { row_index := hdr + 3 + ir.1,
      product_name := prodName,
      variant := variantStr,
      transfers := res.2,
      uses_fallback_priority := pr.usesFallback && sales.isSome })

/-- Sequential processing of the kept rows, threading the cross-row
balancing state. -/
def balRows (cfg : DistributionConfig) (sales : Option SalesPriorityData)
    (avail : List String) (pdata : List BGroup) (hdr : Nat) :
    BalState → List (Nat × Row) → List TransferPreview
  | _, [] => []
  | st, ir :: rest =>
    let pr := processRow cfg sales avail pdata hdr st ir
    pr.2 :: balRows cfg sales avail pdata hdr pr.1 rest

/-- Initial working inventory: the quantity of every (product, variant,
store) triple of the analysis; triples repeated across rows keep the last
row's value, as the Python dict initialization does. -/
def initWorking (pdata : List BGroup) : String × String × String → Int :=
  pdata.foldl
    (fun f g =>
      g.rows.foldl
        (fun f rd =>
          rd.storeQ.foldl (fun f sq => updKey f (g.product, rd.variant, sq.1) sq.2) f)
        f)
    (fun _ => 0)

/-- Embedding of InventoryBalancer.preview
(src/core/balancer.py lines 152-305). -/
def balPreview (cfg : DistributionConfig) (sales : Option SalesPriorityData)
    (df : DF) (hdr : Nat) : List TransferPreview :=
  let avail := availableStores cfg df
  let pdata := analyzeBProducts avail (filteredRows df)
  balRows cfg sales avail pdata hdr ⟨initWorking pdata, []⟩ (filteredRows df)

/-- One exportable transfer batch (models.TransferResult).  The items are
the (product, variant, quantity) lines of the output table; the filename
and timestamp of the source are presentation-layer I/O and are omitted. -/
structure TransferResult where
  sender : String
  receiver : String
  items : List (String × String × Int)
deriving DecidableEq

/-- Append a grouped item under its key, creating the key at the end on
first occurrence (Python dict grouping). -/
def groupAppend (l : List ((String × String) × List (String × String × Int)))
    (k : String × String) (v : String × String × Int) :
    List ((String × String) × List (String × String × Int)) :=
  if l.any (fun e => e.1 = k) then
    l.map (fun e => if e.1 = k then (e.1, e.2 ++ [v]) else e)
  else l ++ [(k, [v])]

/-- Grouping loop of StockDistributor.execute
(src/core/distributor.py lines 407-418): key is the raw
(sender, receiver) pair of each transfer. -/
def groupTransfersPush (previews : List TransferPreview) :
    List ((String × String) × List (String × String × Int)) :=
  previews.foldl
    (fun acc p =>
      p.transfers.foldl
        (fun acc t => groupAppend acc (t.sender, t.receiver) (p.product_name, p.variant, t.quantity))
        acc)
    []

/-- Embedding of StockDistributor.execute
(src/core/distributor.py lines 389-450): group the preview transfers and
reduce each receiver to its store code (first token), or to "Сток" when
the receiver is the source itself. -/
def pushExecute (cfg : DistributionConfig) (sales : Option SalesPriorityData)
    (df : DF) (source : Source) (hdr : Nat) : List TransferResult :=
  (groupTransfersPush (pushPreview cfg sales df source hdr)).map
    (fun e =>
      ⟨e.1.1, if e.1.2 = sourceName source then "Сток" else firstToken e.1.2, e.2⟩)

/-- Grouping loop of InventoryBalancer.execute
(src/core/balancer.py lines 321-339): the receiver is reduced to its
store code (or kept as "Сток") before grouping. -/
def groupTransfersBal (previews : List TransferPreview) :
    List ((String × String) × List (String × String × Int)) :=
  previews.foldl
    (fun acc p =>
      p.transfers.foldl
        (fun acc t =>
          groupAppend acc
            (t.sender, if t.receiver = "Сток" then "Сток" else firstToken t.receiver)
            (p.product_name, p.variant, t.quantity))
        acc)
    []

/-- Embedding of InventoryBalancer.execute
(src/core/balancer.py lines 307-374), including the defensive filter that
drops sender == receiver groups. -/
def balExecute (cfg : DistributionConfig) (sales : Option SalesPriorityData)
    (df : DF) (hdr : Nat) : List TransferResult :=
  (((groupTransfersBal (balPreview cfg sales df hdr)).filter
      (fun e => e.1.1 ≠ e.1.2)).map
    (fun e => ⟨e.1.1, e.1.2, e.2⟩))

/-- One call of StockDistributor.preview as seen by the caller: the input
table comes back unchanged (the source filters a .copy() of the frame and
writes only to fresh dictionaries; no field of the engine and no input
row is ever assigned) together with the computed previews. -/
def pushPreviewCall (cfg : DistributionConfig) (sales : Option SalesPriorityData)
    (df : DF) (source : Source) (hdr : Nat) : DF × List TransferPreview :=
  (df, pushPreview cfg sales df source hdr)

/-- One call of InventoryBalancer.preview as seen by the caller, as
above. -/
def balPreviewCall (cfg : DistributionConfig) (sales : Option SalesPriorityData)
    (df : DF) (hdr : Nat) : DF × List TransferPreview :=
  (df, balPreview cfg sales df hdr)

/-- Partner store of a sender code for one row: the configured pair
partner resolved against the row's candidate stores
(src/core/balancer.py lines 244-247). -/
def partnerReceiver (cfg : DistributionConfig) (stores : List String) (code : String) :
    Option String :=
  match cfg.getPairedStore code with
  | none => none
  | some pc => findStoreByCode pc stores

/-- Active candidate stores of one row, as resolved by the balancer. -/
def rowProductStores (cfg : DistributionConfig) (sales : Option SalesPriorityData)
    (avail : List String) (r : Row) : List String :=
  (getProductPriority cfg sales ((keptProduct r).getD "") avail).active

/-- Quantity held by the store whose code is c, looked up in a row
inventory (well defined when the inventory's store codes are pairwise
distinct). -/
def qtyOfCode (inv : List (String × Int)) (c : String) : Int :=
  (((inv.find? (fun p => firstToken p.1 = c)).map (fun p => p.2)).getD 0)

/-- Total excess of one row: the sum of storeQuantity - threshold over
the stores of the row inventory above the threshold. -/
def rowTotalExcess (cfg : DistributionConfig) (inv : List (String × Int)) : Int :=
  (((inv.filter (fun p => cfg.balance_threshold < p.2)).map
    (fun p => p.2 - cfg.balance_threshold)).sum)

/-- Recursive form of the sender fold of processRow: thread the state
through the sorted senders and concatenate the per-sender transfer
blocks. -/
def senderWalk (cfg : DistributionConfig) (pn vs : String) (g : BGroup)
    (stores : List String) : BalState → List (String × Int) → BalState × List Transfer
  | st, [] => (st, [])
  | st, sq :: rest =>
    let stp := processSender cfg pn vs g stores st sq
    let r := senderWalk cfg pn vs g stores stp.1 rest
    (r.1, stp.2 ++ r.2)

instance (fb : List String) (m : List (Nat × String)) :
    IsTotal StoreSales (salesLe fb m) := by
  constructor
  intro a b
  unfold salesLe
  rcases lt_trichotomy a.quantity b.quantity with h | h | h
  · exact Or.inr (Or.inl h)
  · rcases Nat.le_total (fallbackIdx fb m a) (fallbackIdx fb m b) with h2 | h2
    · exact Or.inl (Or.inr ⟨h, h2⟩)
    · exact Or.inr (Or.inr ⟨h.symm, h2⟩)
  · exact Or.inl (Or.inl h)

instance (fb : List String) (m : List (Nat × String)) :
    IsTrans StoreSales (salesLe fb m) := by
  constructor
  intro a b c hab hbc
  unfold salesLe at hab hbc ⊢
  rcases hab with h1 | ⟨h1, h1i⟩ <;> rcases hbc with h2 | ⟨h2, h2i⟩ <;> omega

/-- Configuration with a duplicated priority entry, a possible
configuration value (store_priority is user-editable). -/
def c5cfg : DistributionConfig := ⟨["11111 A", "11111 A"], [], 2, []⟩

/-- Well-formed two-store configuration for the C5 witness. -/
def c5wcfg : DistributionConfig := ⟨["11111 A", "22222 B"], ["11111 A"], 2, []⟩

/-- Configuration for the C10 witness: one configured pair. -/
def c10cfg : DistributionConfig :=
  ⟨["11111 A", "22222 B"], [], 2, [("11111", "22222")]⟩

/-- Balancer state with a cached decision, for the C10 witness. -/
def c10st : BalState := ⟨fun _ => 0, [(("P", "22222 B"), false)]⟩

/-- Balancer state with an empty cache, for the C10 witness. -/
def c10st0 : BalState := ⟨fun _ => 0, []⟩

/-- Product group for the C10 witness. -/
def c10g : BGroup := ⟨"P", [], 1⟩

/-- All transfers accumulated in the state satisfy P. -/
def TransfersProp (P : Transfer → Prop) (st : PushState) : Prop :=
  ∀ i : Nat, ∀ t ∈ st.transfers i, P t

/-- Configuration whose single store label starts with the token
"Сток". -/
def c8cfg : DistributionConfig := ⟨["Сток магазин"], [], 2, []⟩

/-- One-row table for the C8 counterexample: one unit in the Сток pool,
the store "Сток магазин" empty. -/
def c8df : DF :=
  ⟨["Сток", "Сток магазин"],
   [⟨some "P", "M", [("Сток", Cell.numCell 1), ("Сток магазин", Cell.numCell 0)]⟩]⟩

/-- Ordinary configuration and table for the C8 witness. -/
def c8wcfg : DistributionConfig := ⟨["11111 A"], [], 2, []⟩

/-- Table with one transferable unit for the C8 witness. -/
def c8wdf : DF :=
  ⟨["Сток", "11111 A"],
   [⟨some "P", "M", [("Сток", Cell.numCell 3), ("11111 A", Cell.numCell 0)]⟩]⟩

/-- Configuration and table for the C3 witness: one store above the
threshold, one empty store, no pairs. -/
def c3cfg : DistributionConfig := ⟨["11111 A", "22222 B"], [], 2, []⟩

/-- Row of the C3 witness. -/
def c3row : Row :=
  ⟨some "P", "M", [("11111 A", Cell.numCell 5), ("22222 B", Cell.numCell 0)]⟩

/-- Table of the C3 witness. -/
def c3df : DF := ⟨["Сток", "11111 A", "22222 B"], [c3row]⟩

/-- Configuration for the C4 counterexample: "11111"/"22222" paired. -/
def c4ccfg : DistributionConfig :=
  ⟨["11111 A", "22222 B"], [], 2, [("11111", "22222")]⟩

/-- First row of the C4 counterexample: both pair members above the
threshold. -/
def c4r0 : Row :=
  ⟨some "P", "M", [("11111 A", Cell.numCell 5), ("22222 B", Cell.numCell 3)]⟩

/-- Duplicate (product, variant) row that resets the working inventory. -/
def c4r1 : Row :=
  ⟨some "P", "M", [("11111 A", Cell.numCell 0), ("22222 B", Cell.numCell 0)]⟩

/-- Table of the C4 counterexample. -/
def c4cdf : DF := ⟨["Сток", "11111 A", "22222 B"], [c4r0, c4r1]⟩

/-- Configuration and single-row table for the C4 witness. -/
def c4wdf : DF := ⟨["Сток", "11111 A", "22222 B"],
  [⟨some "P", "M", [("11111 A", Cell.numCell 5), ("22222 B", Cell.numCell 4)]⟩]⟩

/-- The single row preview of the C4 witness table. -/
def c4wp : TransferPreview :=
  (balPreview c4ccfg none c4wdf 0).headD ⟨0, "", "", [], [], none, false, false, false⟩

/-- Remaining-stock ledger invariant of the push pass. -/
def RemInv (R0 : Nat → Int) (st : PushState) : Prop :=
  ∀ i : Nat, st.remaining i = R0 i - ((st.transfers i).length : Int) ∧
    (0 ≤ R0 i → 0 ≤ st.remaining i) ∧
    ∀ t ∈ st.transfers i, t.quantity = 1

/-- Configuration of the C1 counterexample. -/
def c1ccfg : DistributionConfig := ⟨["11111 A"], [], 2, []⟩

/-- Row of the C1 counterexample: the source pool cell holds -3, so
nothing is transferred yet the transferred total 0 exceeds the
start-of-pass source quantity -3. -/
def c1crow : Row :=
  ⟨some "P", "M", [("Сток", Cell.numCell (-3)), ("11111 A", Cell.numCell 0)]⟩

/-- One-row table of the C1 counterexample. -/
def c1cdf : DF := ⟨["Сток", "11111 A"], [c1crow]⟩

/-- Configuration of the C1 witness. -/
def c1wcfg : DistributionConfig := ⟨["11111 A", "22222 B"], [], 2, []⟩

/-- Row of the C1 witness: two units in the source pool, one store above
the rebalancing threshold. -/
def c1wrow : Row :=
  ⟨some "P", "M",
   [("Сток", Cell.numCell 2), ("11111 A", Cell.numCell 5), ("22222 B", Cell.numCell 0)]⟩

/-- Table of the C1 witness. -/
def c1wdf : DF := ⟨["Сток", "11111 A", "22222 B"], [c1wrow]⟩

/-- Following the specification's wording (its sizesAvailableToSend, to
be compared with the source's branch conditions): the number of sizes of
the family with source stock that the store lacks and whose row still
has remaining stock at this evaluation point. -/
def sizesAvailableToSendSpec (g : PGroup) (st : PushState) (store : String) : Nat :=
  (g.rows.filter
    (fun rd => 0 < rd.srcQty ∧ lookupQ rd.storeQ store = 0 ∧
      0 < st.remaining rd.idx)).length

/-- Configuration of the C2 counterexample. -/
def c2ccfg : DistributionConfig := ⟨["11111 A"], [], 2, []⟩

/-- Table of the C2 counterexample: one product of 4 sizes, three with
source stock, the store already holding one of the stocked sizes — so
only 2 sizes are available to send to it. -/
def c2cdf : DF :=
  ⟨["Сток", "11111 A"],
   [⟨some "P", "S", [("Сток", Cell.numCell 1), ("11111 A", Cell.numCell 1)]⟩,
    ⟨some "P", "M", [("Сток", Cell.numCell 1), ("11111 A", Cell.numCell 0)]⟩,
    ⟨some "P", "L", [("Сток", Cell.numCell 1), ("11111 A", Cell.numCell 0)]⟩,
    ⟨some "P", "XL", [("Сток", Cell.numCell 0), ("11111 A", Cell.numCell 0)]⟩]⟩

/-- Configuration of the C2 witness. -/
def c2wcfg : DistributionConfig := ⟨["11111 A"], [], 2, []⟩

/-- Product group of the C2 witness: four sizes, all with source stock,
the store empty. -/
def c2wg : PGroup :=
  ⟨"P", [⟨0, "S", 1, [("11111 A", 0)]⟩, ⟨1, "M", 1, [("11111 A", 0)]⟩,
    ⟨2, "L", 1, [("11111 A", 0)]⟩, ⟨3, "XL", 1, [("11111 A", 0)]⟩]⟩

/-- Initial state of the C2 witness. -/
def c2wst : PushState := initPushState [c2wg]

/-- Invariant preservation along a left fold. -/
theorem foldlPreserves {σ α : Type} {f : σ → α → σ} {P : σ → Prop}
    (h : ∀ s a, P s → P (f s a)) :
    ∀ (l : List α) (s : σ), P s → P (l.foldl f s) := by
  intro l
  induction l with
  | nil => intro s hs; exact hs
  | cons a l ih => intro s hs; exact ih (f s a) (h s a hs)

/-- Invariant preservation along a left fold, restricted to the members
of the folded list. -/
theorem foldlPreservesMem {σ α : Type} {f : σ → α → σ} {P : σ → Prop} {l : List α}
    (h : ∀ s, ∀ a ∈ l, P s → P (f s a)) :
    ∀ (s : σ), P s → P (l.foldl f s) := by
  induction l with
  | nil => intro s hs; exact hs
  | cons a t ih =>
    intro s hs
    exact ih (fun s b hb => h s b (List.mem_cons_of_mem a hb)) (f s a)
      (h s a (List.mem_cons_self a t) hs)

/-- Extending the decision list preserves an existing cached entry. -/
theorem decisionFor_extend (st : BalState) (e : (String × String) × Bool)
    (k : String × String) (b : Bool) (h : st.decisionFor k = some b) :
    BalState.decisionFor { st with decisions := st.decisions ++ [e] } k = some b := by
  unfold BalState.decisionFor at h ⊢
  rcases Option.map_eq_some'.1 h with ⟨x, hx, hval⟩
  rw [List.find?_append, hx]
  simpa using hval

example : getStockValue Cell.blankCell = 0 := rfl

example : getStockValue (Cell.numCell (-3)) = -3 := rfl

example : extractStoreId "0130143 MSK-PCM-Мега 2 Химки" = some 130143 := by decide

example : extractStoreId "125007 MSK-PC-Гагаринский" = some 125007 := by decide

example : extractStoreId "12345678 X" = none := by decide

example : extractStoreId "Итого" = none := by decide

example : extractProductCodeFromInput "Мужские шорты_C3 34770.4007/6214" =
    some "C3 34770.4007/6214" := by decide

example : extractProductCodeFromInput "no underscore" = none := by decide

example : extractProductCodeFromInput "abc_" = none := by decide

example : firstToken "125004 EKT-PC-Гринвич" = "125004" := by decide

/-- C7 (corrected).  The quantity normalization never raises in this
model and maps every blank, missing, placeholder or non-numeric cell to
0; a numeric cell keeps its integer value (hence the result is
non-negative exactly when the cell value is), refuting the unconditional
non-negativity of the original claim (see the counterexample). -/
theorem c7_stock_value_normalization :
    (∀ c : Cell, c.isNonNumeric = true → getStockValue c = 0) ∧
    (∀ n : Int, getStockValue (Cell.numCell n) = n) ∧
    (∀ n : Int, 0 ≤ n → 0 ≤ getStockValue (Cell.numCell n)) := by
  refine ⟨?_, ?_, ?_⟩
  · intro c h
    cases c <;> simp [getStockValue, Cell.isNonNumeric] at *
  · intro n; rfl
  · intro n h; exact h

/-- C7 witness: the normalization at concrete cells. -/
theorem c7_stock_value_normalization_witness :
    getStockValue Cell.placeholderCell = 0 ∧
    getStockValue (Cell.numCell 7) = 7 ∧ (0 : Int) ≤ getStockValue (Cell.numCell 7) :=
  ⟨c7_stock_value_normalization.1 Cell.placeholderCell rfl,
   c7_stock_value_normalization.2.1 7,
   c7_stock_value_normalization.2.2 7 (by decide)⟩

/-- C7 counterexample: a numeric cell holding -3 is a possible cell
value, and get_stock_value returns -3 for it (int(float(-3))), which is
negative — the claimed unconditional non-negativity fails. -/
theorem c7_negative_cell_counterexample :
    ¬ (0 ≤ getStockValue (Cell.numCell (-3))) := by decide

/-- C9 (confirmed).  The resolved ranking of get_priority_order sorts
the product's store sales so that consecutive entries satisfy salesLe:
strictly more units sold first, ties broken by the store's position in
the static priority list (fallbackIdx); the returned name list is the
image of this sorted list under the canonical store-id resolution. -/
theorem c9_sales_priority_ordering (p : ProductSalesData) (fallback : List String)
    (idMap : List (Nat × String)) :
    List.Pairwise (salesLe fallback idMap) (sortedStoreSales p fallback idMap) ∧
    getPriorityOrder p fallback idMap =
      (sortedStoreSales p fallback idMap).filterMap
        (fun s =>
          match lookupId idMap s.store_id with
          | some name => if name = "" then none else some name
          | none => none) := by
  constructor
  · exact List.sorted_insertionSort (salesLe fallback idMap) p.store_sales
  · rfl

/-- C6 (confirmed).  A preview call returns the caller's table unchanged
(the source filters a copy and assigns no input row and no engine field),
and a second call on that returned table produces the same preview
sequence, for both engines. -/
theorem c6_preview_idempotent_and_pure (cfg : DistributionConfig)
    (sales : Option SalesPriorityData) (df : DF) (source : Source) (hdr : Nat) :
    (pushPreviewCall cfg sales df source hdr).1 = df ∧
    (pushPreviewCall cfg sales (pushPreviewCall cfg sales df source hdr).1 source hdr).2 =
      (pushPreviewCall cfg sales df source hdr).2 ∧
    (balPreviewCall cfg sales df hdr).1 = df ∧
    (balPreviewCall cfg sales (balPreviewCall cfg sales df hdr).1 hdr).2 =
      (balPreviewCall cfg sales df hdr).2 :=
  ⟨rfl, rfl, rfl, rfl⟩

theorem mem_appendMissing_left {base extra : List String} {s : String}
    (h : s ∈ base) : s ∈ appendMissing base extra := by
  unfold appendMissing
  refine foldlPreserves (P := fun acc => s ∈ acc) ?_ extra base h
  intro acc a ha
  by_cases hm : a ∈ acc
  · simpa [hm] using ha
  · simp only [hm, if_neg, if_false]
    exact List.mem_append_left _ ha

theorem mem_appendMissing_right {s : String} :
    ∀ (extra base : List String), s ∈ extra → s ∈ appendMissing base extra := by
  intro extra
  induction extra with
  | nil => intro base h; cases h
  | cons a t ih =>
    intro base h
    have hstep : appendMissing base (a :: t) =
        appendMissing (if a ∈ base then base else base ++ [a]) t := by
      unfold appendMissing
      rfl
    rcases List.mem_cons.1 h with rfl | hmem
    · rw [hstep]
      by_cases hm : s ∈ base
      · exact mem_appendMissing_left (by simp [hm])
      · refine mem_appendMissing_left ?_
        simp [hm]
    · rw [hstep]; exact ih _ hmem

theorem mem_of_mem_appendMissing {s : String} :
    ∀ (extra base : List String), s ∈ appendMissing base extra → s ∈ base ∨ s ∈ extra := by
  intro extra
  induction extra with
  | nil => intro base h; exact Or.inl h
  | cons a t ih =>
    intro base h
    have hstep : appendMissing base (a :: t) =
        appendMissing (if a ∈ base then base else base ++ [a]) t := by
      unfold appendMissing; rfl
    rw [hstep] at h
    rcases ih _ h with hb | ht
    · by_cases hm : a ∈ base
      · simp only [hm, if_pos] at hb
        exact Or.inl hb
      · simp only [hm, if_neg, if_false] at hb
        rcases List.mem_append.1 hb with hb | hb
        · exact Or.inl hb
        · simp at hb
          exact Or.inr (by simp [hb])
    · exact Or.inr (List.mem_cons_of_mem a ht)

theorem nodup_appendMissing :
    ∀ (extra base : List String), base.Nodup → (appendMissing base extra).Nodup := by
  intro extra
  induction extra with
  | nil => intro base h; exact h
  | cons a t ih =>
    intro base h
    have hstep : appendMissing base (a :: t) =
        appendMissing (if a ∈ base then base else base ++ [a]) t := by
      unfold appendMissing; rfl
    rw [hstep]
    by_cases hm : a ∈ base
    · simpa [hm] using ih base h
    · refine ih _ ?_
      simp only [hm, if_neg, if_false]
      have hpair : base.Nodup ∧ a ∉ base := ⟨h, hm⟩
      simpa [List.nodup_append] using hpair

theorem mem_active_stores_iff (cfg : DistributionConfig) (s : String) :
    s ∈ cfg.active_stores ↔ s ∈ cfg.store_priority ∧ s ∉ cfg.excluded_stores := by
  unfold DistributionConfig.active_stores
  simp [List.mem_filter]

/-- C5 (corrected).  The active list never contains an excluded store and
contains every available non-excluded store; it is duplicate-free only
under the extra hypotheses that the configured priority list and the
sales-resolved ranking are themselves duplicate-free (the counterexample
shows the unconditional at-most-once guarantee of the claim fails);
excluded stores are retained in the separate full list (which keeps every
available configured store, excluded ones included). -/
theorem c5_product_priority_resolution (cfg : DistributionConfig)
    (sales : Option SalesPriorityData) (productName : String) (avail : List String) :
    (∀ s ∈ (getProductPriority cfg sales productName avail).active, s ∉ cfg.excluded_stores) ∧
    (∀ s ∈ cfg.store_priority, s ∈ avail → s ∉ cfg.excluded_stores →
      s ∈ (getProductPriority cfg sales productName avail).active) ∧
    (cfg.store_priority.Nodup →
      (∀ l, resolvedSalesPriority cfg sales productName = some l → l.Nodup) →
      (getProductPriority cfg sales productName avail).active.Nodup) ∧
    (∀ s ∈ cfg.store_priority, s ∈ avail →
      s ∈ (getProductPriority cfg sales productName avail).full) := by
  have hfb : ∀ s, s ∈ cfg.active_stores.filter (fun s => s ∈ avail) ↔
      s ∈ cfg.store_priority ∧ s ∉ cfg.excluded_stores ∧ s ∈ avail := by
    intro s
    rw [List.mem_filter, mem_active_stores_iff]
    simp [and_assoc]
  have hfbnd : cfg.store_priority.Nodup →
      (cfg.active_stores.filter (fun s => s ∈ avail)).Nodup := by
    intro h
    exact (h.filter _).filter _
  have hfullmem : ∀ s ∈ cfg.store_priority, s ∈ avail →
      s ∈ cfg.store_priority.filter (fun s => s ∈ avail) := by
    intro s hs ha
    rw [List.mem_filter]
    exact ⟨hs, by simpa using ha⟩
  cases sales with
  | none =>
    refine ⟨?_, ?_, ?_, ?_⟩
    · intro s hs
      exact ((hfb s).1 hs).2.1
    · intro s hs ha hx
      exact (hfb s).2 ⟨hs, hx, ha⟩
    · intro hnd _
      exact hfbnd hnd
    · intro s hs ha
      exact hfullmem s hs ha
  | some sd =>
    cases hx : extractProductCodeFromInput productName with
    | none =>
      refine ⟨?_, ?_, ?_, ?_⟩ <;>
        simp only [getProductPriority, hx]
      · intro s hs
        exact ((hfb s).1 hs).2.1
      · intro s hs ha hxx
        exact (hfb s).2 ⟨hs, hxx, ha⟩
      · intro hnd _
        exact hfbnd hnd
      · intro s hs ha
        exact hfullmem s hs ha
    | some code =>
      by_cases hf : (getProductPriorityData sd code cfg.store_priority
          (buildStoreIdMap cfg.store_priority)).2
      · have hres : resolvedSalesPriority cfg (some sd) productName =
            some (getProductPriorityData sd code cfg.store_priority
              (buildStoreIdMap cfg.store_priority)).1 := by
          simp [resolvedSalesPriority, hx, hf]
        refine ⟨?_, ?_, ?_, ?_⟩ <;>
          simp only [getProductPriority, hx, hf, if_pos]
        · intro s hs
          rcases mem_of_mem_appendMissing _ _ hs with h | h
          · rw [List.mem_filter] at h
            have := h.2
            simp only [decide_eq_true_eq] at this
            exact ((mem_active_stores_iff cfg s).1 this.2).2
          · exact ((hfb s).1 h).2.1
        · intro s hs ha hxx
          exact mem_appendMissing_right _ _ ((hfb s).2 ⟨hs, hxx, ha⟩)
        · intro hnd hsal
          refine nodup_appendMissing _ _ ?_
          exact (hsal _ hres).filter _
        · intro s hs ha
          exact mem_appendMissing_right _ _ (hfullmem s hs ha)
      · refine ⟨?_, ?_, ?_, ?_⟩ <;>
          simp only [getProductPriority, hx, hf, if_neg, if_false]
        · intro s hs
          exact ((hfb s).1 hs).2.1
        · intro s hs ha hxx
          exact (hfb s).2 ⟨hs, hxx, ha⟩
        · intro hnd _
          exact hfbnd hnd
        · intro s hs ha
          exact hfullmem s hs ha

/-- C5 counterexample: with a duplicated configured priority entry the
active candidate list returned by the resolver contains the available
non-excluded store twice, refuting the unconditional at-most-once part of
the claim. -/
theorem c5_duplicate_priority_counterexample :
    ¬ (((getProductPriority c5cfg none "P" ["11111 A"]).active.filter
        (fun s => s = "11111 A")).length ≤ 1) := by decide

/-- C5 witness: on a duplicate-free configuration with store "11111 A"
excluded, the resolver's active list is duplicate-free, contains the
available active store "22222 B", omits the excluded store, and the full
list still has the excluded store. -/
theorem c5_product_priority_resolution_witness :
    (getProductPriority c5wcfg none "P" ["11111 A", "22222 B"]).active.Nodup ∧
    "22222 B" ∈ (getProductPriority c5wcfg none "P" ["11111 A", "22222 B"]).active ∧
    "11111 A" ∉ (getProductPriority c5wcfg none "P" ["11111 A", "22222 B"]).active ∧
    "11111 A" ∈ (getProductPriority c5wcfg none "P" ["11111 A", "22222 B"]).full := by
  have h := c5_product_priority_resolution c5wcfg none "P" ["11111 A", "22222 B"]
  refine ⟨h.2.2.1 (by decide) ?_, h.2.1 "22222 B" (by decide) (by decide) (by decide),
    ?_, h.2.2.2 "11111 A" (by decide) (by decide)⟩
  · intro l hl
    simp [resolvedSalesPriority] at hl
  · intro hmem
    exact h.1 "11111 A" hmem (by decide)

theorem decisionFor_setWorking (st : BalState) (w : String × String × String → Int)
    (k : String × String) :
    BalState.decisionFor { st with working := w } k = st.decisionFor k := rfl

theorem cacheDecision_monotone (cfg : DistributionConfig) (pn : String) (g : BGroup)
    (sn ps : String) (st : BalState) (k : String × String) (b : Bool)
    (h : st.decisionFor k = some b) :
    (cacheDecision cfg pn g sn ps st).decisionFor k = some b := by
  unfold cacheDecision
  split
  · exact h
  · exact decisionFor_extend st _ k b h

theorem cacheDecision_sets (cfg : DistributionConfig) (pn : String) (g : BGroup)
    (sn ps : String) (st : BalState)
    (h : st.decisionFor (pn, ps) = none) :
    (cacheDecision cfg pn g sn ps st).decisionFor (pn, ps) =
      some (computePartnerDecision cfg.balance_threshold g sn ps) := by
  unfold cacheDecision
  rw [h]
  simp only [Option.isSome_none, Bool.false_eq_true, if_false, if_neg, not_false_iff]
  unfold BalState.decisionFor at h ⊢
  have hf : st.decisions.find? (fun e => e.1 = (pn, ps)) = none := by
    cases hh : st.decisions.find? (fun e => e.1 = (pn, ps)) with
    | none => rfl
    | some x => rw [hh] at h; simp at h
  rw [List.find?_append, hf]
  simp [List.find?]

theorem processSender_state_shape (cfg : DistributionConfig) (pn vs : String)
    (g : BGroup) (stores : List String) (st : BalState) (sq : String × Int) :
    (processSender cfg pn vs g stores st sq).1 = st ∨
    ∃ ps, (processSender cfg pn vs g stores st sq).1 = cacheDecision cfg pn g sq.1 ps st ∨
      (processSender cfg pn vs g stores st sq).1 =
        { cacheDecision cfg pn g sq.1 ps st with
          working := updKey (cacheDecision cfg pn g sq.1 ps st).working (pn, vs, ps) 1 } := by
  unfold processSender
  dsimp only
  split
  · exact Or.inl rfl
  · split
    · exact Or.inl rfl
    · split
      · exact Or.inl rfl
      · rename_i ps heq
        split
        · exact Or.inl rfl
        · split
          · split
            · exact Or.inr ⟨ps, Or.inr rfl⟩
            · exact Or.inr ⟨ps, Or.inl rfl⟩
          · exact Or.inr ⟨ps, Or.inl rfl⟩

theorem processSender_decision_monotone (cfg : DistributionConfig) (pn vs : String)
    (g : BGroup) (stores : List String) (st : BalState) (sq : String × Int)
    (k : String × String) (b : Bool) (h : st.decisionFor k = some b) :
    (processSender cfg pn vs g stores st sq).1.decisionFor k = some b := by
  rcases processSender_state_shape cfg pn vs g stores st sq with hs | ⟨ps, hs | hs⟩
  · rw [hs]; exact h
  · rw [hs]; exact cacheDecision_monotone cfg pn g sq.1 ps st k b h
  · rw [hs, decisionFor_setWorking]
    exact cacheDecision_monotone cfg pn g sq.1 ps st k b h

theorem processRow_decision_monotone (cfg : DistributionConfig)
    (sales : Option SalesPriorityData) (avail : List String) (pdata : List BGroup)
    (hdr : Nat) (st : BalState) (ir : Nat × Row) (k : String × String) (b : Bool)
    (h : st.decisionFor k = some b) :
    (processRow cfg sales avail pdata hdr st ir).1.decisionFor k = some b := by
  unfold processRow
  dsimp only
  refine foldlPreserves
    (P := fun acc : BalState × List Transfer => acc.1.decisionFor k = some b) ?_ _ (st, []) h
  intro s a hs
  exact processSender_decision_monotone cfg _ _ _ _ s.1 a k b hs

theorem processSender_decision_first_eval (cfg : DistributionConfig) (pn vs : String)
    (g : BGroup) (stores : List String) (st : BalState) (sq : String × Int)
    (pc ps : String)
    (hq : cfg.balance_threshold < sq.2)
    (hpc : cfg.getPairedStore (firstToken sq.1) = some pc)
    (hps : findStoreByCode pc stores = some ps)
    (hex : ps ∉ cfg.excluded_stores)
    (hnone : st.decisionFor (pn, ps) = none) :
    (processSender cfg pn vs g stores st sq).1.decisionFor (pn, ps) =
      some (computePartnerDecision cfg.balance_threshold g sq.1 ps) := by
  have he : ¬ (sq.2 - cfg.balance_threshold ≤ 0) := by omega
  unfold processSender
  simp only [hpc, hps, he, if_false, hex, if_neg, not_false_iff]
  split
  · split
    · rw [decisionFor_setWorking]
      exact cacheDecision_sets cfg pn g sq.1 ps st hnone
    · exact cacheDecision_sets cfg pn g sq.1 ps st hnone
  · exact cacheDecision_sets cfg pn g sq.1 ps st hnone

/-- C10 (confirmed).  Within one balancing pass the (product, partner)
completeness decision is evaluated at most once: a cached entry survives
every further sender step and every further row step unchanged, and the
step that first encounters an uncached (product, partner) pair — the
first excess-holding sender whose configured, resolvable, non-excluded
partner it is — stores exactly the decision computed from the initial
analysis snapshot (computePartnerDecision). -/
theorem c10_min_sizes_decision_cached :
    (∀ (cfg : DistributionConfig) (pn vs : String) (g : BGroup) (stores : List String)
        (st : BalState) (sq : String × Int) (k : String × String) (b : Bool),
      st.decisionFor k = some b →
      (processSender cfg pn vs g stores st sq).1.decisionFor k = some b) ∧
    (∀ (cfg : DistributionConfig) (sales : Option SalesPriorityData) (avail : List String)
        (pdata : List BGroup) (hdr : Nat) (st : BalState) (ir : Nat × Row)
        (k : String × String) (b : Bool),
      st.decisionFor k = some b →
      (processRow cfg sales avail pdata hdr st ir).1.decisionFor k = some b) ∧
    (∀ (cfg : DistributionConfig) (pn vs : String) (g : BGroup) (stores : List String)
        (st : BalState) (sq : String × Int) (pc ps : String),
      cfg.balance_threshold < sq.2 →
      cfg.getPairedStore (firstToken sq.1) = some pc →
      findStoreByCode pc stores = some ps →
      ps ∉ cfg.excluded_stores →
      st.decisionFor (pn, ps) = none →
      (processSender cfg pn vs g stores st sq).1.decisionFor (pn, ps) =
        some (computePartnerDecision cfg.balance_threshold g sq.1 ps)) :=
  ⟨fun cfg pn vs g stores st sq k b h =>
      processSender_decision_monotone cfg pn vs g stores st sq k b h,
   fun cfg sales avail pdata hdr st ir k b h =>
      processRow_decision_monotone cfg sales avail pdata hdr st ir k b h,
   fun cfg pn vs g stores st sq pc ps hq hpc hps hex hnone =>
      processSender_decision_first_eval cfg pn vs g stores st sq pc ps hq hpc hps hex hnone⟩

/-- C10 witness: the cached decision for ("P", "22222 B") survives a
sender step and a row step unchanged, and a first evaluation caches the
computed decision. -/
theorem c10_min_sizes_decision_cached_witness :
    (processSender c10cfg "P" "M" c10g ["11111 A", "22222 B"] c10st
        ("11111 A", 5)).1.decisionFor ("P", "22222 B") = some false ∧
    (processRow c10cfg none ["11111 A", "22222 B"] [c10g] 0 c10st
        (0, ⟨some "P", "M", []⟩)).1.decisionFor ("P", "22222 B") = some false ∧
    (processSender c10cfg "P" "M" c10g ["11111 A", "22222 B"] c10st0
        ("11111 A", 5)).1.decisionFor ("P", "22222 B") =
      some (computePartnerDecision 2 c10g "11111 A" "22222 B") :=
  ⟨c10_min_sizes_decision_cached.1 c10cfg "P" "M" c10g ["11111 A", "22222 B"] c10st
      ("11111 A", 5) ("P", "22222 B") false (by decide),
   c10_min_sizes_decision_cached.2.1 c10cfg none ["11111 A", "22222 B"] [c10g] 0 c10st
      (0, ⟨some "P", "M", []⟩) ("P", "22222 B") false (by decide),
   c10_min_sizes_decision_cached.2.2 c10cfg "P" "M" c10g ["11111 A", "22222 B"] c10st0
      ("11111 A", 5) "22222" "22222 B" (by decide) (by decide) (by decide) (by decide)
      (by decide)⟩

theorem addSkip_transfers (st : PushState) (i : Nat) (s : SkippedStore) :
    (addSkip st i s).transfers = st.transfers := rfl

theorem addSkip_remaining (st : PushState) (i : Nat) (s : SkippedStore) :
    (addSkip st i s).remaining = st.remaining := rfl

theorem setReason_transfers (st : PushState) (i : Nat) (m : String) :
    (setReason st i m).transfers = st.transfers := by
  cases h : st.reason i <;> simp [setReason, h]

theorem setReason_remaining (st : PushState) (i : Nat) (m : String) :
    (setReason st i m).remaining = st.remaining := by
  cases h : st.reason i <;> simp [setReason, h]

theorem setMinFlag_transfers (st : PushState) (i : Nat) :
    (setMinFlag st i).transfers = st.transfers := rfl

theorem setMinFlag_remaining (st : PushState) (i : Nat) :
    (setMinFlag st i).remaining = st.remaining := rfl

theorem mem_addTransfer (st : PushState) (i : Nat) (t : Transfer) (j : Nat)
    (u : Transfer) (h : u ∈ (addTransfer st i t).transfers j) :
    u ∈ st.transfers j ∨ u = t := by
  unfold addTransfer updAt at h
  dsimp only at h
  by_cases hj : j = i
  · rw [if_pos hj] at h
    rcases List.mem_append.1 h with h | h
    · exact Or.inl (hj ▸ h)
    · simp at h
      exact Or.inr h
  · rw [if_neg hj] at h
    exact Or.inl h

theorem transfersProp_addSkip (P : Transfer → Prop) (st : PushState) (i : Nat)
    (s : SkippedStore) (h : TransfersProp P st) : TransfersProp P (addSkip st i s) := by
  intro j t ht
  exact h j t (by rwa [addSkip_transfers] at ht)

theorem transfersProp_addTransfer (P : Transfer → Prop) (st : PushState) (i : Nat)
    (t : Transfer) (h : TransfersProp P st) (hnew : P t) :
    TransfersProp P (addTransfer st i t) := by
  intro j u hu
  rcases mem_addTransfer st i t j u hu with h1 | rfl
  · exact h j u h1
  · exact hnew

theorem processStore_transfersProp (P : Transfer → Prop) (cfg : DistributionConfig)
    (srcName : String) (g : PGroup) (availCnt : Nat) (st : PushState) (store : String)
    (h : TransfersProp P st)
    (hnew : store ∉ cfg.excluded_stores → P ⟨srcName, store, 1⟩) :
    TransfersProp P (processStore cfg srcName g availCnt st store) := by
  unfold processStore
  by_cases hexcl : store ∈ cfg.excluded_stores
  · rw [if_pos hexcl]
    refine foldlPreserves (P := TransfersProp P) ?_ g.rows st h
    intro s rd hs
    split
    · exact transfersProp_addSkip P s rd.idx _ hs
    · exact hs
  · rw [if_neg hexcl]
    by_cases hrule : storeSizesCount g.rows store ≤ 1 ∧ 4 ≤ g.rows.length
    · rw [if_pos hrule]
      by_cases hav : availCnt < 3
      · rw [if_pos hav]
        refine foldlPreserves (P := TransfersProp P) ?_ g.rows st h
        intro s rd hs
        split
        · refine transfersProp_addSkip P _ rd.idx _ ?_
          intro j t ht
          rw [setMinFlag_transfers, setReason_transfers] at ht
          exact hs j t ht
        · exact hs
      · rw [if_neg hav]
        dsimp only
        split
        · refine foldlPreserves (P := TransfersProp P) ?_ _ st h
          intro s rd hs
          split
          · exact transfersProp_addTransfer P s rd.idx _ hs (hnew hexcl)
          · exact hs
        · exact h
    · rw [if_neg hrule]
      refine foldlPreserves (P := TransfersProp P) ?_ g.rows st h
      intro s rd hs
      dsimp only
      split
      · exact transfersProp_addSkip P s rd.idx _ hs
      · split
        · exact transfersProp_addTransfer P s rd.idx _ hs (hnew hexcl)
        · exact hs

theorem full_subset_avail (cfg : DistributionConfig) (sales : Option SalesPriorityData)
    (productName : String) (avail : List String) (s : String)
    (h : s ∈ (getProductPriority cfg sales productName avail).full) : s ∈ avail := by
  have hfull : ∀ x ∈ cfg.store_priority.filter (fun s => s ∈ avail), x ∈ avail := by
    intro x hx
    have := (List.mem_filter.1 hx).2
    simpa using this
  cases sales with
  | none => exact hfull s h
  | some sd =>
    cases hx : extractProductCodeFromInput productName with
    | none =>
      simp only [getProductPriority, hx] at h
      exact hfull s h
    | some code =>
      by_cases hf : (getProductPriorityData sd code cfg.store_priority
          (buildStoreIdMap cfg.store_priority)).2
      · simp only [getProductPriority, hx, hf, if_pos] at h
        rcases mem_of_mem_appendMissing _ _ h with h1 | h1
        · have := (List.mem_filter.1 h1).2
          simpa using this
        · exact hfull s h1
      · simp only [getProductPriority, hx, hf, if_neg, if_false] at h
        exact hfull s h

theorem pushFinal_transfersProp (cfg : DistributionConfig)
    (sales : Option SalesPriorityData) (df : DF) (source : Source) :
    TransfersProp
      (fun t => t.sender = sourceName source ∧ t.receiver ∈ availableStores cfg df ∧
        t.receiver ∉ cfg.excluded_stores)
      (pushFinal cfg sales df source) := by
  unfold pushFinal
  refine foldlPreserves (P := TransfersProp _) ?_ _ _ ?_
  · intro st g hst
    unfold processProduct
    refine foldlPreservesMem ?_ st hst
    intro s store hstore hs
    refine processStore_transfersProp _ cfg _ g _ s store hs ?_
    intro hexcl
    exact ⟨rfl, full_subset_avail cfg sales g.product (availableStores cfg df) store hstore, hexcl⟩
  · intro i t ht
    cases ht

theorem pushPreview_transfers_shape (cfg : DistributionConfig)
    (sales : Option SalesPriorityData) (df : DF) (source : Source) (hdr : Nat)
    (p : TransferPreview) (hp : p ∈ pushPreview cfg sales df source hdr)
    (t : Transfer) (ht : t ∈ p.transfers) :
    t.sender = sourceName source ∧ t.receiver ∈ availableStores cfg df ∧
      t.receiver ∉ cfg.excluded_stores := by
  unfold pushPreview at hp
  have hp2 := (List.perm_insertionSort
    (fun p q : TransferPreview => p.row_index ≤ q.row_index) _).mem_iff.1 hp
  rcases List.mem_flatMap.1 hp2 with ⟨g, hg, hpg⟩
  rcases List.mem_map.1 hpg with ⟨rd, hrd, rfl⟩
  exact pushFinal_transfersProp cfg sales df source rd.idx t ht

theorem mem_groupAppend_keys {K : String × String → Prop}
    (acc : List ((String × String) × List (String × String × Int)))
    (k : String × String) (v : String × String × Int)
    (h : ∀ e ∈ acc, K e.1) (hk : K k) :
    ∀ e ∈ groupAppend acc k v, K e.1 := by
  intro e he
  unfold groupAppend at he
  split at he
  · rcases List.mem_map.1 he with ⟨e0, he0, rfl⟩
    by_cases h0 : e0.1 = k
    · rw [if_pos h0]
      exact h e0 he0
    · rw [if_neg h0]
      exact h e0 he0
  · rcases List.mem_append.1 he with h1 | h1
    · exact h e h1
    · simp at h1
      rw [h1]
      exact hk

theorem groupTransfersPush_keys (previews : List TransferPreview)
    (K : String × String → Prop)
    (hK : ∀ p ∈ previews, ∀ t ∈ p.transfers, K (t.sender, t.receiver)) :
    ∀ e ∈ groupTransfersPush previews, K e.1 := by
  unfold groupTransfersPush
  refine foldlPreservesMem
    (P := fun acc : List ((String × String) × List (String × String × Int)) =>
      ∀ e ∈ acc, K e.1) ?_ [] (by intro e he; cases he)
  intro acc p hp hacc
  refine foldlPreservesMem
    (P := fun acc : List ((String × String) × List (String × String × Int)) =>
      ∀ e ∈ acc, K e.1) ?_ acc hacc
  intro acc2 t ht hacc2
  exact mem_groupAppend_keys acc2 _ _ hacc2 (hK p hp t ht)

/-- C8 (corrected).  The balancer's execute filters sender == receiver
groups defensively, so none of its TransferResults is a self-transfer;
the distributor's execute has no such filter and is self-transfer-free
only under the extra hypothesis that no configured store label coincides
with, or has its leading token equal to, the source display name (the
counterexample shows a store named "Сток магазин" produces a
Сток-to-Сток batch). -/
theorem c8_no_self_transfer :
    (∀ (cfg : DistributionConfig) (sales : Option SalesPriorityData) (df : DF) (hdr : Nat),
      ∀ res ∈ balExecute cfg sales df hdr, res.sender ≠ res.receiver) ∧
    (∀ (cfg : DistributionConfig) (sales : Option SalesPriorityData) (df : DF)
        (source : Source) (hdr : Nat),
      (∀ s ∈ cfg.store_priority, firstToken s ≠ sourceName source ∧ s ≠ sourceName source) →
      ∀ res ∈ pushExecute cfg sales df source hdr, res.sender ≠ res.receiver) := by
  constructor
  · intro cfg sales df hdr res hres
    unfold balExecute at hres
    rcases List.mem_map.1 hres with ⟨e, he, rfl⟩
    have h2 := (List.mem_filter.1 he).2
    simpa using h2
  · intro cfg sales df source hdr H res hres
    unfold pushExecute at hres
    rcases List.mem_map.1 hres with ⟨e, he, rfl⟩
    have hkey := groupTransfersPush_keys (pushPreview cfg sales df source hdr)
      (fun k => k.1 = sourceName source ∧ k.2 ∈ availableStores cfg df)
      (fun p hp t ht =>
        ⟨(pushPreview_transfers_shape cfg sales df source hdr p hp t ht).1,
         (pushPreview_transfers_shape cfg sales df source hdr p hp t ht).2.1⟩)
      e he
    have hrp : e.1.2 ∈ cfg.store_priority := (List.mem_filter.1 hkey.2).1
    have hH := H e.1.2 hrp
    dsimp only
    rw [if_neg hH.2, hkey.1]
    exact fun hcontra => hH.1 hcontra.symm

/-- C8 counterexample: the distributor's execute groups the transfer to
"Сток магазин" under receiver code "Сток", equal to the sender "Сток" —
a self-transfer TransferResult, refuting the claim for the push engine. -/
theorem c8_push_self_transfer_counterexample :
    ¬ (∀ res ∈ pushExecute c8cfg none c8df Source.stock 0,
        res.sender ≠ res.receiver) := by decide

/-- C8 witness: on an ordinary store label, every batch of both engines
has distinct sender and receiver. -/
theorem c8_no_self_transfer_witness :
    (∀ res ∈ balExecute c8wcfg none c8wdf 0, res.sender ≠ res.receiver) ∧
    (∀ res ∈ pushExecute c8wcfg none c8wdf Source.stock 0, res.sender ≠ res.receiver) :=
  ⟨c8_no_self_transfer.1 c8wcfg none c8wdf 0,
   c8_no_self_transfer.2 c8wcfg none c8wdf Source.stock 0 (by decide)⟩

theorem findStoreByCode_has_space (pc : String) (stores : List String) (ps : String)
    (h : findStoreByCode pc stores = some ps) : ' ' ∈ ps.data := by
  unfold findStoreByCode at h
  have hp := List.find?_some h
  have hpre : (pc.data ++ [' ']) <+: ps.data := by
    exact (List.isPrefixOf_iff_prefix).1 hp
  exact hpre.subset (List.mem_append_right _ (by simp))

theorem findStoreByCode_ne_stok (pc : String) (stores : List String) (ps : String)
    (h : findStoreByCode pc stores = some ps) : ps ≠ "Сток" := by
  intro hps
  have := findStoreByCode_has_space pc stores ps h
  rw [hps] at this
  revert this
  decide

theorem getD_false_eq_true {o : Option Bool} (h : o.getD false = true) : o = some true := by
  cases o with
  | none => simp at h
  | some b => cases b with
    | false => simp at h
    | true => rfl

theorem cacheDecision_working (cfg : DistributionConfig) (pn : String) (g : BGroup)
    (sn ps : String) (st : BalState) :
    (cacheDecision cfg pn g sn ps st).working = st.working := by
  unfold cacheDecision
  split <;> rfl

theorem processSender_block_split (cfg : DistributionConfig) (pn vs : String)
    (g : BGroup) (stores : List String) (st : BalState) (sq : String × Int) :
    ∃ bp bq, (processSender cfg pn vs g stores st sq).2 = bp ++ bq ∧
      (bp = [] ∨ ∃ ps, partnerReceiver cfg stores (firstToken sq.1) = some ps ∧
        ps ≠ "Сток" ∧ bp = [⟨firstToken sq.1, ps, 1⟩] ∧
        st.working (pn, vs, ps) = 0 ∧
        (processSender cfg pn vs g stores st sq).1.decisionFor (pn, ps) = some true) ∧
      (bq = [] ∨ ∃ rem, 0 < rem ∧ bq = [⟨firstToken sq.1, "Сток", rem⟩]) := by
  unfold processSender
  dsimp only
  split
  · exact ⟨[], [], rfl, Or.inl rfl, Or.inl rfl⟩
  · rename_i he
    split
    · refine ⟨[], _, rfl, Or.inl rfl, ?_⟩
      split
      · rename_i hrem
        exact Or.inr ⟨_, hrem, rfl⟩
      · exact Or.inl rfl
    · rename_i pc hpc
      split
      · refine ⟨[], _, rfl, Or.inl rfl, ?_⟩
        split
        · rename_i hrem
          exact Or.inr ⟨_, hrem, rfl⟩
        · exact Or.inl rfl
      · rename_i ps hps
        split
        · refine ⟨[], _, rfl, Or.inl rfl, ?_⟩
          split
          · rename_i hrem
            exact Or.inr ⟨_, hrem, rfl⟩
          · exact Or.inl rfl
        · rename_i hexcl
          split
          · rename_i hdec
            split
            · rename_i hcond
              refine ⟨[⟨firstToken sq.1, ps, 1⟩], _, rfl, ?_, ?_⟩
              · refine Or.inr ⟨ps, ?_, findStoreByCode_ne_stok pc stores ps hps, rfl,
                  ?_, ?_⟩
                · unfold partnerReceiver
                  rw [hpc]
                  exact hps
                · rw [← cacheDecision_working cfg pn g sq.1 ps st]
                  exact hcond.1
                · rw [decisionFor_setWorking]
                  exact getD_false_eq_true hdec
              · split
                · rename_i hrem
                  exact Or.inr ⟨_, hrem, rfl⟩
                · exact Or.inl rfl
            · refine ⟨[], _, rfl, Or.inl rfl, ?_⟩
              split
              · rename_i hrem
                exact Or.inr ⟨_, hrem, rfl⟩
              · exact Or.inl rfl
          · refine ⟨[], _, rfl, Or.inl rfl, ?_⟩
            split
            · rename_i hrem
              exact Or.inr ⟨_, hrem, rfl⟩
            · exact Or.inl rfl

theorem processSender_sum (cfg : DistributionConfig) (pn vs : String) (g : BGroup)
    (stores : List String) (st : BalState) (sq : String × Int) :
    (((processSender cfg pn vs g stores st sq).2.map (fun t => t.quantity)).sum) =
      max (sq.2 - cfg.balance_threshold) 0 := by
  unfold processSender
  dsimp only
  split
  · rename_i he
    simp
    omega
  · rename_i he
    split
    · dsimp only
      split <;> (simp; omega)
    · split
      · dsimp only
        split <;> (simp; omega)
      · split
        · dsimp only
          split <;> (simp; omega)
        · split
          · split
            · dsimp only
              split <;> (simp; omega)
            · dsimp only
              split <;> (simp; omega)
          · dsimp only
            split <;> (simp; omega)

theorem processSender_senders (cfg : DistributionConfig) (pn vs : String) (g : BGroup)
    (stores : List String) (st : BalState) (sq : String × Int) (t : Transfer)
    (ht : t ∈ (processSender cfg pn vs g stores st sq).2) :
    t.sender = firstToken sq.1 := by
  rcases processSender_block_split cfg pn vs g stores st sq with
    ⟨bp, bq, heq, hbp, hbq⟩
  rw [heq] at ht
  rcases List.mem_append.1 ht with h | h
  · rcases hbp with rfl | ⟨ps, _, _, rfl, _, _⟩
    · cases h
    · simp at h
      rw [h]
  · rcases hbq with rfl | ⟨rem, _, rfl⟩
    · cases h
    · simp at h
      rw [h]

theorem processSender_receivers (cfg : DistributionConfig) (pn vs : String) (g : BGroup)
    (stores : List String) (st : BalState) (sq : String × Int) (t : Transfer)
    (ht : t ∈ (processSender cfg pn vs g stores st sq).2) :
    t.receiver = "Сток" ∨
      (partnerReceiver cfg stores t.sender = some t.receiver ∧ t.quantity = 1) := by
  rcases processSender_block_split cfg pn vs g stores st sq with
    ⟨bp, bq, heq, hbp, hbq⟩
  rw [heq] at ht
  rcases List.mem_append.1 ht with h | h
  · rcases hbp with rfl | ⟨ps, hpr, hpsne, rfl, hw, hd⟩
    · cases h
    · simp at h
      rw [h]
      exact Or.inr ⟨hpr, rfl⟩
  · rcases hbq with rfl | ⟨rem, _, rfl⟩
    · cases h
    · simp at h
      rw [h]
      exact Or.inl rfl

theorem processSender_partner_cond (cfg : DistributionConfig) (pn vs : String)
    (g : BGroup) (stores : List String) (st : BalState) (sq : String × Int)
    (t : Transfer) (ht : t ∈ (processSender cfg pn vs g stores st sq).2)
    (hnp : t.receiver ≠ "Сток") :
    st.working (pn, vs, t.receiver) = 0 ∧
      (processSender cfg pn vs g stores st sq).1.decisionFor (pn, t.receiver) =
        some true ∧ t.quantity = 1 := by
  rcases processSender_block_split cfg pn vs g stores st sq with
    ⟨bp, bq, heq, hbp, hbq⟩
  rw [heq] at ht
  rcases List.mem_append.1 ht with h | h
  · rcases hbp with rfl | ⟨ps, hpr, hpsne, rfl, hw, hd⟩
    · cases h
    · simp at h
      rw [h]
      exact ⟨hw, hd, rfl⟩
  · rcases hbq with rfl | ⟨rem, _, rfl⟩
    · cases h
    · simp at h
      rw [h] at hnp
      simp at hnp

theorem processSender_working_shape (cfg : DistributionConfig) (pn vs : String)
    (g : BGroup) (stores : List String) (st : BalState) (sq : String × Int)
    (k : String × String × String) :
    (processSender cfg pn vs g stores st sq).1.working k = st.working k ∨
      (processSender cfg pn vs g stores st sq).1.working k = 1 := by
  rcases processSender_state_shape cfg pn vs g stores st sq with hs | ⟨ps, hs | hs⟩
  · rw [hs]; exact Or.inl rfl
  · rw [hs, cacheDecision_working]; exact Or.inl rfl
  · rw [hs]
    dsimp only
    simp only [updKey]
    by_cases hk : k = (pn, vs, ps)
    · rw [if_pos hk]; exact Or.inr rfl
    · rw [if_neg hk, cacheDecision_working]; exact Or.inl rfl

theorem foldl_senderWalk (cfg : DistributionConfig) (pn vs : String) (g : BGroup)
    (stores : List String) :
    ∀ (l : List (String × Int)) (st : BalState) (ts : List Transfer),
      l.foldl
        (fun (acc : BalState × List Transfer) sq =>
          let stp := processSender cfg pn vs g stores acc.1 sq
          (stp.1, acc.2 ++ stp.2)) (st, ts) =
      ((senderWalk cfg pn vs g stores st l).1,
        ts ++ (senderWalk cfg pn vs g stores st l).2) := by
  intro l
  induction l with
  | nil => intro st ts; simp [senderWalk]
  | cons sq rest ih =>
    intro st ts
    rw [List.foldl_cons]
    dsimp only
    rw [ih]
    simp [senderWalk]

theorem senderWalk_working (cfg : DistributionConfig) (pn vs : String) (g : BGroup)
    (stores : List String) :
    ∀ (l : List (String × Int)) (st : BalState) (k : String × String × String),
      (senderWalk cfg pn vs g stores st l).1.working k = st.working k ∨
        (senderWalk cfg pn vs g stores st l).1.working k = 1 := by
  intro l
  induction l with
  | nil => intro st k; exact Or.inl rfl
  | cons sq rest ih =>
    intro st k
    have h1 := processSender_working_shape cfg pn vs g stores st sq k
    have h2 := ih (processSender cfg pn vs g stores st sq).1 k
    show (senderWalk cfg pn vs g stores
      (processSender cfg pn vs g stores st sq).1 rest).1.working k = _ ∨ _
    rcases h2 with h2 | h2 <;> rcases h1 with h1 | h1
    · exact Or.inl (h2.trans h1)
    · exact Or.inr (h2.trans h1)
    · exact Or.inr h2
    · exact Or.inr h2

theorem senderWalk_sum (cfg : DistributionConfig) (pn vs : String) (g : BGroup)
    (stores : List String) :
    ∀ (l : List (String × Int)) (st : BalState),
      (((senderWalk cfg pn vs g stores st l).2.map (fun t => t.quantity)).sum) =
        ((l.map (fun sq => max (sq.2 - cfg.balance_threshold) 0)).sum) := by
  intro l
  induction l with
  | nil => intro st; rfl
  | cons sq rest ih =>
    intro st
    show ((((processSender cfg pn vs g stores st sq).2 ++
      (senderWalk cfg pn vs g stores
        (processSender cfg pn vs g stores st sq).1 rest).2).map (fun t => t.quantity)).sum) = _
    rw [List.map_append, List.sum_append, processSender_sum, ih]
    simp

theorem senderWalk_senders (cfg : DistributionConfig) (pn vs : String) (g : BGroup)
    (stores : List String) :
    ∀ (l : List (String × Int)) (st : BalState) (t : Transfer),
      t ∈ (senderWalk cfg pn vs g stores st l).2 →
        ∃ sq ∈ l, t.sender = firstToken sq.1 := by
  intro l
  induction l with
  | nil => intro st t ht; cases ht
  | cons sq rest ih =>
    intro st t ht
    rcases List.mem_append.1 ht with h | h
    · exact ⟨sq, List.mem_cons_self sq rest, processSender_senders cfg pn vs g stores st sq t h⟩
    · rcases ih _ t h with ⟨sq2, hsq2, hs⟩
      exact ⟨sq2, List.mem_cons_of_mem sq hsq2, hs⟩

theorem senderWalk_receivers (cfg : DistributionConfig) (pn vs : String) (g : BGroup)
    (stores : List String) :
    ∀ (l : List (String × Int)) (st : BalState) (t : Transfer),
      t ∈ (senderWalk cfg pn vs g stores st l).2 →
        t.receiver = "Сток" ∨
          (partnerReceiver cfg stores t.sender = some t.receiver ∧ t.quantity = 1) := by
  intro l
  induction l with
  | nil => intro st t ht; cases ht
  | cons sq rest ih =>
    intro st t ht
    rcases List.mem_append.1 ht with h | h
    · rcases processSender_receivers cfg pn vs g stores st sq t h with h1 | h1
      · exact Or.inl h1
      · exact Or.inr h1
    · exact ih _ t h

theorem senderWalk_blocked (cfg : DistributionConfig) (pn vs : String) (g : BGroup)
    (stores : List String) (X : String) (hXs : X ≠ "Сток") :
    ∀ (l : List (String × Int)) (st : BalState),
      1 ≤ st.working (pn, vs, X) →
      ∀ t ∈ (senderWalk cfg pn vs g stores st l).2, t.receiver ≠ X := by
  intro l
  induction l with
  | nil => intro st hw t ht; cases ht
  | cons sq rest ih =>
    intro st hw t ht
    rcases List.mem_append.1 ht with h | h
    · by_cases hpool : t.receiver = "Сток"
      · rw [hpool]
        exact fun hc => hXs hc.symm
      · intro hX
        have hc := processSender_partner_cond cfg pn vs g stores st sq t h hpool
        rw [hX] at hc
        omega
    · refine ih _ ?_ t h
      rcases processSender_working_shape cfg pn vs g stores st sq (pn, vs, X) with h1 | h1
      · rw [h1]; exact hw
      · omega

theorem qtyOfCode_eq :
    ∀ (inv : List (String × Int)),
      inv.Pairwise (fun a b => firstToken a.1 ≠ firstToken b.1) →
      ∀ sq ∈ inv, qtyOfCode inv (firstToken sq.1) = sq.2 := by
  intro inv
  induction inv with
  | nil => intro _ sq h; cases h
  | cons a rest ih =>
    intro hnd sq hsq
    rcases List.mem_cons.1 hsq with rfl | hmem
    · unfold qtyOfCode
      rw [List.find?_cons_of_pos _ (by simp)]
      rfl
    · have hne := List.rel_of_pairwise_cons hnd hmem
      unfold qtyOfCode
      rw [List.find?_cons_of_neg _ (by simpa using hne)]
      exact ih (List.pairwise_cons.1 hnd).2 sq hmem

theorem senderWalk_filter_sum (cfg : DistributionConfig) (pn vs : String) (g : BGroup)
    (stores : List String) :
    ∀ (l : List (String × Int)) (st : BalState) (sq0 : String × Int),
      l.Pairwise (fun a b => firstToken a.1 ≠ firstToken b.1) →
      sq0 ∈ l →
      ((((senderWalk cfg pn vs g stores st l).2.filter
        (fun t => t.sender = firstToken sq0.1)).map (fun t => t.quantity)).sum) =
        max (sq0.2 - cfg.balance_threshold) 0 := by
  intro l
  induction l with
  | nil => intro st sq0 _ h; cases h
  | cons sqa rest ih =>
    intro st sq0 hnd hmem
    show (((((processSender cfg pn vs g stores st sqa).2 ++
        (senderWalk cfg pn vs g stores
          (processSender cfg pn vs g stores st sqa).1 rest).2).filter
        (fun t => t.sender = firstToken sq0.1)).map (fun t => t.quantity)).sum) = _
    rw [List.filter_append, List.map_append, List.sum_append]
    rcases List.mem_cons.1 hmem with rfl | hm
    · have hb : ((processSender cfg pn vs g stores st sq0).2.filter
          (fun t => t.sender = firstToken sq0.1)) =
          (processSender cfg pn vs g stores st sq0).2 := by
        rw [List.filter_eq_self]
        intro t ht
        simpa using processSender_senders cfg pn vs g stores st sq0 t ht
      have hr : ((senderWalk cfg pn vs g stores
          (processSender cfg pn vs g stores st sq0).1 rest).2.filter
          (fun t => t.sender = firstToken sq0.1)) = [] := by
        rw [List.filter_eq_nil_iff]
        intro t ht
        rcases senderWalk_senders cfg pn vs g stores rest _ t ht with ⟨sq2, hsq2, hs⟩
        have := List.rel_of_pairwise_cons hnd hsq2
        simp only [decide_eq_true_eq]
        rw [hs]
        exact fun hcontra => this hcontra.symm
      rw [hb, hr, processSender_sum]
      simp
    · have hb : ((processSender cfg pn vs g stores st sqa).2.filter
          (fun t => t.sender = firstToken sq0.1)) = [] := by
        rw [List.filter_eq_nil_iff]
        intro t ht
        have hs := processSender_senders cfg pn vs g stores st sqa t ht
        have := List.rel_of_pairwise_cons hnd hm
        simp only [decide_eq_true_eq]
        rw [hs]
        exact this
      rw [hb]
      simp only [List.map_nil, List.sum_nil, zero_add]
      exact ih _ sq0 (List.pairwise_cons.1 hnd).2 hm

theorem processSender_filter_counts (cfg : DistributionConfig) (pn vs : String)
    (g : BGroup) (stores : List String) (st : BalState) (sq : String × Int)
    (c : String) :
    (((processSender cfg pn vs g stores st sq).2.filter
      (fun t => t.sender = c ∧ t.receiver ≠ "Сток")).length ≤ 1) ∧
    (((processSender cfg pn vs g stores st sq).2.filter
      (fun t => t.sender = c ∧ t.receiver = "Сток")).length ≤ 1) := by
  rcases processSender_block_split cfg pn vs g stores st sq with
    ⟨bp, bq, heq, hbp, hbq⟩
  rw [heq, List.filter_append, List.filter_append]
  have hbp2 : (bp.filter (fun t => t.sender = c ∧ t.receiver ≠ "Сток")).length ≤ 1 ∧
      (bp.filter (fun t => t.sender = c ∧ t.receiver = "Сток")).length = 0 := by
    rcases hbp with rfl | ⟨ps, hpr, hpsne, rfl, hw, hd⟩
    · simp
    · constructor
      · simp [List.filter]
        split <;> simp
      · simp [List.filter, hpsne]
  have hbq2 : (bq.filter (fun t => t.sender = c ∧ t.receiver ≠ "Сток")).length = 0 ∧
      (bq.filter (fun t => t.sender = c ∧ t.receiver = "Сток")).length ≤ 1 := by
    rcases hbq with rfl | ⟨rem, hrem, rfl⟩
    · simp
    · constructor
      · simp [List.filter]
      · simp [List.filter]
        split <;> simp
  constructor
  · rw [List.length_append, hbq2.1]
    omega
  · rw [List.length_append, hbp2.2]
    omega

theorem senderWalk_counts (cfg : DistributionConfig) (pn vs : String) (g : BGroup)
    (stores : List String) :
    ∀ (l : List (String × Int)) (st : BalState) (c : String),
      l.Pairwise (fun a b => firstToken a.1 ≠ firstToken b.1) →
      (((senderWalk cfg pn vs g stores st l).2.filter
        (fun t => t.sender = c ∧ t.receiver ≠ "Сток")).length ≤ 1) ∧
      (((senderWalk cfg pn vs g stores st l).2.filter
        (fun t => t.sender = c ∧ t.receiver = "Сток")).length ≤ 1) := by
  intro l
  induction l with
  | nil => intro st c _; constructor <;> simp [senderWalk]
  | cons sqa rest ih =>
    intro st c hnd
    have hsplit : (senderWalk cfg pn vs g stores st (sqa :: rest)).2 =
        (processSender cfg pn vs g stores st sqa).2 ++
        (senderWalk cfg pn vs g stores
          (processSender cfg pn vs g stores st sqa).1 rest).2 := rfl
    rw [hsplit]
    simp only [List.filter_append, List.length_append]
    by_cases hc : c = firstToken sqa.1
    · have hsenders : ∀ t ∈ (senderWalk cfg pn vs g stores
          (processSender cfg pn vs g stores st sqa).1 rest).2, t.sender ≠ c := by
        intro t ht
        rcases senderWalk_senders cfg pn vs g stores rest _ t ht with ⟨sq2, hsq2, hs⟩
        have hne := List.rel_of_pairwise_cons hnd hsq2
        rw [hs, hc]
        exact fun hcontra => hne hcontra.symm
      have hr1 : ((senderWalk cfg pn vs g stores
          (processSender cfg pn vs g stores st sqa).1 rest).2.filter
          (fun t => t.sender = c ∧ t.receiver ≠ "Сток")) = [] := by
        rw [List.filter_eq_nil_iff]
        intro t ht
        simp only [decide_eq_true_eq]
        exact fun hand => hsenders t ht hand.1
      have hr2 : ((senderWalk cfg pn vs g stores
          (processSender cfg pn vs g stores st sqa).1 rest).2.filter
          (fun t => t.sender = c ∧ t.receiver = "Сток")) = [] := by
        rw [List.filter_eq_nil_iff]
        intro t ht
        simp only [decide_eq_true_eq]
        exact fun hand => hsenders t ht hand.1
      rw [hr1, hr2]
      have hcount := processSender_filter_counts cfg pn vs g stores st sqa c
      constructor
      · simpa using hcount.1
      · simpa using hcount.2
    · have hsenders : ∀ t ∈ (processSender cfg pn vs g stores st sqa).2,
          t.sender ≠ c := by
        intro t ht
        have hs := processSender_senders cfg pn vs g stores st sqa t ht
        rw [hs]
        exact fun hcontra => hc hcontra.symm
      have hb1 : ((processSender cfg pn vs g stores st sqa).2.filter
          (fun t => t.sender = c ∧ t.receiver ≠ "Сток")) = [] := by
        rw [List.filter_eq_nil_iff]
        intro t ht
        simp only [decide_eq_true_eq]
        exact fun hand => hsenders t ht hand.1
      have hb2 : ((processSender cfg pn vs g stores st sqa).2.filter
          (fun t => t.sender = c ∧ t.receiver = "Сток")) = [] := by
        rw [List.filter_eq_nil_iff]
        intro t ht
        simp only [decide_eq_true_eq]
        exact fun hand => hsenders t ht hand.1
      rw [hb1, hb2]
      have hcount := ih (processSender cfg pn vs g stores st sqa).1 c
        (List.pairwise_cons.1 hnd).2
      constructor
      · simpa using hcount.1
      · simpa using hcount.2

theorem senderWalk_pairwise (cfg : DistributionConfig) (pn vs : String) (g : BGroup)
    (stores : List String) (inv : List (String × Int))
    (hndinv : inv.Pairwise (fun a b => firstToken a.1 ≠ firstToken b.1)) :
    ∀ (l : List (String × Int)) (st : BalState),
      l.Pairwise (fun a b => b.2 ≤ a.2) →
      (∀ x ∈ l, x ∈ inv) →
      (senderWalk cfg pn vs g stores st l).2.Pairwise
        (fun t1 t2 => qtyOfCode inv t2.sender ≤ qtyOfCode inv t1.sender) := by
  intro l
  induction l with
  | nil => intro st _ _; exact List.Pairwise.nil
  | cons sqa rest ih =>
    intro st hsort hsub
    have hsplit : (senderWalk cfg pn vs g stores st (sqa :: rest)).2 =
        (processSender cfg pn vs g stores st sqa).2 ++
        (senderWalk cfg pn vs g stores
          (processSender cfg pn vs g stores st sqa).1 rest).2 := rfl
    rw [hsplit, List.pairwise_append]
    refine ⟨?_, ?_, ?_⟩
    · refine List.pairwise_of_forall_mem_list ?_
      intro t1 h1 t2 h2
      rw [processSender_senders cfg pn vs g stores st sqa t1 h1,
        processSender_senders cfg pn vs g stores st sqa t2 h2]
    · exact ih _ (List.pairwise_cons.1 hsort).2
        (fun x hx => hsub x (List.mem_cons_of_mem sqa hx))
    · intro t1 h1 t2 h2
      rw [processSender_senders cfg pn vs g stores st sqa t1 h1]
      rcases senderWalk_senders cfg pn vs g stores rest _ t2 h2 with ⟨sq2, hsq2, hs2⟩
      rw [hs2]
      rw [qtyOfCode_eq inv hndinv sqa (hsub sqa (List.mem_cons_self sqa rest)),
        qtyOfCode_eq inv hndinv sq2 (hsub sq2 (List.mem_cons_of_mem sqa hsq2))]
      exact List.rel_of_pairwise_cons hsort hsq2

theorem processRow_parts (cfg : DistributionConfig) (sales : Option SalesPriorityData)
    (avail : List String) (pdata : List BGroup) (hdr : Nat) (st : BalState)
    (ir : Nat × Row) :
    (processRow cfg sales avail pdata hdr st ir).2.transfers =
      (senderWalk cfg ((keptProduct ir.2).getD "") ir.2.variant
        ((pdata.find? (fun g => g.product = (keptProduct ir.2).getD "")).getD
          ⟨(keptProduct ir.2).getD "", [], 1⟩)
        (rowProductStores cfg sales avail ir.2) st
        (List.insertionSort invDesc
          ((rowInventory (rowProductStores cfg sales avail ir.2) ir.2).filter
            (fun p => cfg.balance_threshold < p.2)))).2 ∧
    (processRow cfg sales avail pdata hdr st ir).1 =
      (senderWalk cfg ((keptProduct ir.2).getD "") ir.2.variant
        ((pdata.find? (fun g => g.product = (keptProduct ir.2).getD "")).getD
          ⟨(keptProduct ir.2).getD "", [], 1⟩)
        (rowProductStores cfg sales avail ir.2) st
        (List.insertionSort invDesc
          ((rowInventory (rowProductStores cfg sales avail ir.2) ir.2).filter
            (fun p => cfg.balance_threshold < p.2)))).1 ∧
    (processRow cfg sales avail pdata hdr st ir).2.row_index = hdr + 3 + ir.1 := by
  unfold processRow
  dsimp only
  rw [foldl_senderWalk]
  refine ⟨?_, rfl, rfl⟩
  simp [rowProductStores]

theorem processRow_working_mono (cfg : DistributionConfig)
    (sales : Option SalesPriorityData) (avail : List String) (pdata : List BGroup)
    (hdr : Nat) (st : BalState) (ir : Nat × Row) (k : String × String × String)
    (h : 1 ≤ st.working k) :
    1 ≤ (processRow cfg sales avail pdata hdr st ir).1.working k := by
  rw [(processRow_parts cfg sales avail pdata hdr st ir).2.1]
  rcases senderWalk_working cfg ((keptProduct ir.2).getD "") ir.2.variant
      ((pdata.find? (fun g => g.product = (keptProduct ir.2).getD "")).getD
        ⟨(keptProduct ir.2).getD "", [], 1⟩)
      (rowProductStores cfg sales avail ir.2)
      (List.insertionSort invDesc
        ((rowInventory (rowProductStores cfg sales avail ir.2) ir.2).filter
          (fun p => cfg.balance_threshold < p.2))) st k with h1 | h1
  · rw [h1]; exact h
  · omega

theorem balRows_shape (cfg : DistributionConfig) (sales : Option SalesPriorityData)
    (avail : List String) (pdata : List BGroup) (hdr : Nat) :
    ∀ (rows : List (Nat × Row)) (st : BalState) (p : TransferPreview),
      p ∈ balRows cfg sales avail pdata hdr st rows →
      ∃ st2 ir, ir ∈ rows ∧ p = (processRow cfg sales avail pdata hdr st2 ir).2 ∧
        (∀ k, 1 ≤ st.working k → 1 ≤ st2.working k) := by
  intro rows
  induction rows with
  | nil => intro st p hp; cases hp
  | cons ir rest ih =>
    intro st p hp
    have hsplit : balRows cfg sales avail pdata hdr st (ir :: rest) =
        (processRow cfg sales avail pdata hdr st ir).2 ::
          balRows cfg sales avail pdata hdr
            (processRow cfg sales avail pdata hdr st ir).1 rest := rfl
    rw [hsplit] at hp
    rcases List.mem_cons.1 hp with rfl | hmem
    · exact ⟨st, ir, List.mem_cons_self ir rest, rfl, fun _ h => h⟩
    · rcases ih _ p hmem with ⟨st2, ir2, hmem2, heq, hmono⟩
      refine ⟨st2, ir2, List.mem_cons_of_mem ir hmem2, heq, ?_⟩
      intro k hk
      exact hmono k (processRow_working_mono cfg sales avail pdata hdr st ir k hk)

theorem filteredRows_get (df : DF) (ir : Nat × Row) (h : ir ∈ filteredRows df) :
    df.rows.get? ir.1 = some ir.2 ∧ (keptProduct ir.2).isSome := by
  obtain ⟨i, r⟩ := ir
  unfold filteredRows at h
  have h1 := List.mem_filter.1 h
  have h2 := List.mem_enum h1.1
  constructor
  · show df.rows.get? i = some r
    rw [List.get?_eq_getElem?, List.getElem?_eq_getElem h2.1]
    exact congrArg some h2.2.symm
  · simpa using h1.2

theorem sortedExcess_pairwise_codes (cfg : DistributionConfig)
    (inv : List (String × Int))
    (hnd : inv.Pairwise (fun a b => firstToken a.1 ≠ firstToken b.1)) :
    (List.insertionSort invDesc
      (inv.filter (fun p => cfg.balance_threshold < p.2))).Pairwise
        (fun a b => firstToken a.1 ≠ firstToken b.1) := by
  have hfil : (inv.filter (fun p => cfg.balance_threshold < p.2)).Pairwise
      (fun a b => firstToken a.1 ≠ firstToken b.1) :=
    List.Pairwise.sublist (List.filter_sublist inv) hnd
  exact (List.Perm.pairwise_iff (fun h => h.symm)
    (List.perm_insertionSort invDesc _)).2 hfil

theorem sortedExcess_mem (cfg : DistributionConfig) (inv : List (String × Int))
    (sq : String × Int) (h1 : sq ∈ inv) (h2 : cfg.balance_threshold < sq.2) :
    sq ∈ List.insertionSort invDesc
      (inv.filter (fun p => cfg.balance_threshold < p.2)) :=
  (List.perm_insertionSort invDesc _).mem_iff.2
    (List.mem_filter.2 ⟨h1, by simpa using h2⟩)

theorem sortedExcess_sub (cfg : DistributionConfig) (inv : List (String × Int))
    (sq : String × Int)
    (h : sq ∈ List.insertionSort invDesc
      (inv.filter (fun p => cfg.balance_threshold < p.2))) : sq ∈ inv :=
  (List.mem_filter.1 ((List.perm_insertionSort invDesc _).mem_iff.1 h)).1

/-- C3 (confirmed).  For a kept row of InventoryBalancer.preview whose
inventory has pairwise-distinct store codes (the codes are the only
sender identity recorded on transfers), the row's preview sends, for
every store above the threshold, transfers totalling exactly quantity
minus threshold under that store's code; transfers appear in descending
order of the sender's store quantity; every transfer goes to the pool or
to the sender's configured resolvable partner (one unit); per sender
code there is at most one partner transfer and at most one (batched)
pool transfer.  The final conjunct states the partner conditions of one
sender step: a non-pool transfer happens only when the cached
completeness decision is positive and the partner's working quantity for
this exact size was zero. -/
theorem c3_rebalancing_per_row (cfg : DistributionConfig)
    (sales : Option SalesPriorityData) (df : DF) (hdr : Nat) (i : Nat) (r : Row)
    (hget : df.rows.get? i = some r)
    (hnd : (rowInventory (rowProductStores cfg sales (availableStores cfg df) r) r).Pairwise
      (fun a b => firstToken a.1 ≠ firstToken b.1)) :
    (∀ p ∈ balPreview cfg sales df hdr, p.row_index = hdr + 3 + i →
      ((∀ sq ∈ rowInventory (rowProductStores cfg sales (availableStores cfg df) r) r,
          cfg.balance_threshold < sq.2 →
          (((p.transfers.filter (fun t => t.sender = firstToken sq.1)).map
            (fun t => t.quantity)).sum) = sq.2 - cfg.balance_threshold) ∧
      p.transfers.Pairwise (fun t1 t2 =>
        qtyOfCode (rowInventory (rowProductStores cfg sales (availableStores cfg df) r) r)
            t2.sender ≤
          qtyOfCode (rowInventory (rowProductStores cfg sales (availableStores cfg df) r) r)
            t1.sender) ∧
      (∀ t ∈ p.transfers, t.receiver = "Сток" ∨
        (partnerReceiver cfg (rowProductStores cfg sales (availableStores cfg df) r)
            t.sender = some t.receiver ∧ t.quantity = 1)) ∧
      (∀ c : String,
        ((p.transfers.filter (fun t => t.sender = c ∧ t.receiver ≠ "Сток")).length ≤ 1) ∧
        ((p.transfers.filter (fun t => t.sender = c ∧ t.receiver = "Сток")).length ≤ 1)))) ∧
    (∀ (pn vs : String) (g : BGroup) (stores : List String) (st : BalState)
        (sq : String × Int) (t : Transfer),
      t ∈ (processSender cfg pn vs g stores st sq).2 → t.receiver ≠ "Сток" →
      st.working (pn, vs, t.receiver) = 0 ∧
        (processSender cfg pn vs g stores st sq).1.decisionFor (pn, t.receiver) =
          some true ∧ t.quantity = 1) := by
  constructor
  · intro p hp hri
    unfold balPreview at hp
    rcases balRows_shape cfg sales (availableStores cfg df)
      (analyzeBProducts (availableStores cfg df) (filteredRows df)) hdr
      (filteredRows df) _ p hp with ⟨st2, ir, hmem, rfl, _⟩
    have hparts := processRow_parts cfg sales (availableStores cfg df)
      (analyzeBProducts (availableStores cfg df) (filteredRows df)) hdr st2 ir
    have hidx : ir.1 = i := by
      have := hparts.2.2
      rw [hri] at this
      omega
    have hget2 := (filteredRows_get df ir hmem).1
    rw [hidx, hget] at hget2
    have hr2 : ir.2 = r := by injection hget2 with h2; exact h2.symm
    rw [hparts.1, hr2]
    have hsortnd := sortedExcess_pairwise_codes cfg
      (rowInventory (rowProductStores cfg sales (availableStores cfg df) r) r) hnd
    refine ⟨?_, ?_, ?_, ?_⟩
    · intro sq hsq hq
      rw [senderWalk_filter_sum cfg ((keptProduct r).getD "") r.variant _ _ _ st2 sq
        hsortnd (sortedExcess_mem cfg _ sq hsq hq)]
      omega
    · refine senderWalk_pairwise cfg ((keptProduct r).getD "") r.variant _ _
        (rowInventory (rowProductStores cfg sales (availableStores cfg df) r) r) hnd _ st2
        (List.sorted_insertionSort invDesc _) ?_
      intro x hx
      exact sortedExcess_sub cfg _ x hx
    · intro t ht
      exact senderWalk_receivers cfg ((keptProduct r).getD "") r.variant _ _ _ st2 t ht
    · intro c
      exact senderWalk_counts cfg ((keptProduct r).getD "") r.variant _ _ _ st2 c hsortnd
  · intro pn vs g stores st sq t ht hnp
    exact processSender_partner_cond cfg pn vs g stores st sq t ht hnp

/-- C3 witness: on the concrete one-row table, the store with quantity 5
and threshold 2 sends transfers totalling exactly 3 under its code, and
the partner-condition conjunct evaluated at a concrete sender step. -/
theorem c3_rebalancing_per_row_witness :
    (∀ p ∈ balPreview c3cfg none c3df 0, p.row_index = 0 + 3 + 0 →
      (((p.transfers.filter (fun t => t.sender = firstToken "11111 A")).map
        (fun t => t.quantity)).sum) = 5 - 2) ∧
    (∀ t ∈ (processSender c3cfg "P" "M" ⟨"P", [], 1⟩ ["11111 A"] ⟨fun _ => 0, []⟩
        ("11111 A", 5)).2, t.receiver ≠ "Сток" →
      (⟨fun _ => 0, []⟩ : BalState).working ("P", "M", t.receiver) = 0) := by
  have h := c3_rebalancing_per_row c3cfg none c3df 0 0 c3row (by decide) (by decide)
  constructor
  · intro p hp hri
    exact (h.1 p hp hri).1 ("11111 A", 5) (by decide) (by decide)
  · intro t ht hnp
    exact (h.2 "P" "M" ⟨"P", [], 1⟩ ["11111 A"] ⟨fun _ => 0, []⟩ ("11111 A", 5) t ht hnp).1

/-- C4 (corrected).  When both members of a configured pair are above
the threshold in a row, neither receives a unit and both route their
whole surplus to the pool — provided the pass-initial working inventory
of the row's (product, variant) key at each partner equals this row's
quantity (the counterexample shows a duplicated (product, variant) row
resets that key to the later row's value and lets an above-threshold
partner receive a unit). -/
theorem c4_paired_excess_to_pool (cfg : DistributionConfig)
    (sales : Option SalesPriorityData) (df : DF) (hdr : Nat) (i : Nat) (r : Row)
    (A B : String)
    (hget : df.rows.get? i = some r)
    (hthr : 0 ≤ cfg.balance_threshold)
    (hqA : cfg.balance_threshold < r.qty A)
    (hqB : cfg.balance_threshold < r.qty B)
    (hinitA : initWorking (analyzeBProducts (availableStores cfg df) (filteredRows df))
        ((keptProduct r).getD "", r.variant, A) = r.qty A)
    (hinitB : initWorking (analyzeBProducts (availableStores cfg df) (filteredRows df))
        ((keptProduct r).getD "", r.variant, B) = r.qty B)
    (hAs : A ≠ "Сток") (hBs : B ≠ "Сток")
    (hpartnerA : partnerReceiver cfg (rowProductStores cfg sales (availableStores cfg df) r)
        (firstToken A) = some B)
    (hpartnerB : partnerReceiver cfg (rowProductStores cfg sales (availableStores cfg df) r)
        (firstToken B) = some A) :
    ∀ p ∈ balPreview cfg sales df hdr, p.row_index = hdr + 3 + i →
      (∀ t ∈ p.transfers, t.receiver ≠ A ∧ t.receiver ≠ B) ∧
      (∀ t ∈ p.transfers, t.sender = firstToken A ∨ t.sender = firstToken B →
        t.receiver = "Сток") := by
  intro p hp hri
  unfold balPreview at hp
  rcases balRows_shape cfg sales (availableStores cfg df)
    (analyzeBProducts (availableStores cfg df) (filteredRows df)) hdr
    (filteredRows df) _ p hp with ⟨st2, ir, hmem, rfl, hmono⟩
  have hparts := processRow_parts cfg sales (availableStores cfg df)
    (analyzeBProducts (availableStores cfg df) (filteredRows df)) hdr st2 ir
  have hidx : ir.1 = i := by
    have := hparts.2.2
    rw [hri] at this
    omega
  have hget2 := (filteredRows_get df ir hmem).1
  rw [hidx, hget] at hget2
  have hr2 : ir.2 = r := by injection hget2 with h2; exact h2.symm
  have hwA : 1 ≤ st2.working ((keptProduct r).getD "", r.variant, A) := by
    refine hmono _ ?_
    show 1 ≤ initWorking (analyzeBProducts (availableStores cfg df) (filteredRows df)) _
    rw [hinitA]
    omega
  have hwB : 1 ≤ st2.working ((keptProduct r).getD "", r.variant, B) := by
    refine hmono _ ?_
    show 1 ≤ initWorking (analyzeBProducts (availableStores cfg df) (filteredRows df)) _
    rw [hinitB]
    omega
  rw [hparts.1, hr2]
  have hblockA := senderWalk_blocked cfg ((keptProduct r).getD "") r.variant
    ((analyzeBProducts (availableStores cfg df) (filteredRows df)).find?
      (fun g => g.product = (keptProduct r).getD "")
      |>.getD ⟨(keptProduct r).getD "", [], 1⟩)
    (rowProductStores cfg sales (availableStores cfg df) r) A hAs
    (List.insertionSort invDesc
      ((rowInventory (rowProductStores cfg sales (availableStores cfg df) r) r).filter
        (fun p => cfg.balance_threshold < p.2))) st2 hwA
  have hblockB := senderWalk_blocked cfg ((keptProduct r).getD "") r.variant
    ((analyzeBProducts (availableStores cfg df) (filteredRows df)).find?
      (fun g => g.product = (keptProduct r).getD "")
      |>.getD ⟨(keptProduct r).getD "", [], 1⟩)
    (rowProductStores cfg sales (availableStores cfg df) r) B hBs
    (List.insertionSort invDesc
      ((rowInventory (rowProductStores cfg sales (availableStores cfg df) r) r).filter
        (fun p => cfg.balance_threshold < p.2))) st2 hwB
  constructor
  · intro t ht
    exact ⟨hblockA t ht, hblockB t ht⟩
  · intro t ht hs
    rcases senderWalk_receivers cfg ((keptProduct r).getD "") r.variant _ _ _ st2 t ht with
      h1 | ⟨h1, _⟩
    · exact h1
    · exfalso
      rcases hs with hs | hs
      · rw [hs, hpartnerA] at h1
        injection h1 with h1
        exact hblockB t ht h1.symm
      · rw [hs, hpartnerB] at h1
        injection h1 with h1
        exact hblockA t ht h1.symm

/-- C4 counterexample: in row 0 both paired stores are above the
threshold, yet the second pair member receives a unit from the first,
because the duplicated (product, variant) row 1 reinitializes the
working-inventory key to zero. -/
theorem c4_paired_excess_counterexample :
    c4ccfg.getPairedStore (firstToken "11111 A") = some "22222" ∧
    c4ccfg.balance_threshold < c4r0.qty "11111 A" ∧
    c4ccfg.balance_threshold < c4r0.qty "22222 B" ∧
    ¬ (∀ p ∈ balPreview c4ccfg none c4cdf 0, p.row_index = 0 + 3 + 0 →
        ∀ t ∈ p.transfers, t.receiver ≠ "22222 B") := by decide

/-- C4 witness: with a single row and both pair members above the
threshold, no transfer reaches either member and both codes send only to
the pool. -/
theorem c4_paired_excess_to_pool_witness :
    (∀ t ∈ c4wp.transfers, t.receiver ≠ "11111 A" ∧ t.receiver ≠ "22222 B") ∧
    (∀ t ∈ c4wp.transfers, t.sender = firstToken "11111 A" ∨
      t.sender = firstToken "22222 B" → t.receiver = "Сток") :=
  c4_paired_excess_to_pool c4ccfg none c4wdf 0 0
    ⟨some "P", "M", [("11111 A", Cell.numCell 5), ("22222 B", Cell.numCell 4)]⟩
    "11111 A" "22222 B" (by decide) (by decide) (by decide) (by decide) (by decide)
    (by decide) (by decide) (by decide) (by decide) (by decide) c4wp (by decide)
    (by decide)

theorem addToGroups_products (groups : List PGroup) (p : String) (rd : PRowData) :
    (addToGroups groups p rd).map (fun g => g.product) =
      if groups.any (fun g => g.product = p) then groups.map (fun g => g.product)
      else groups.map (fun g => g.product) ++ [p] := by
  unfold addToGroups
  split
  · rw [List.map_map]
    refine List.map_congr_left ?_
    intro g hg
    by_cases hp : g.product = p
    · simp [hp]
    · simp [hp]
  · simp

theorem addToGroups_flat (groups : List PGroup) (p : String) (rd : PRowData)
    (hnd : (groups.map (fun g => g.product)).Nodup) :
    ((addToGroups groups p rd).flatMap (fun g => g.rows)).Perm
      ((groups.flatMap (fun g => g.rows)) ++ [rd]) := by
  unfold addToGroups
  split
  · rename_i hany
    induction groups with
    | nil => simp at hany
    | cons g rest ih =>
      by_cases hp : g.product = p
      · have hrest : rest.map
            (fun g2 => if g2.product = p then (⟨g2.product, g2.rows ++ [rd]⟩ : PGroup) else g2) =
            rest := by
          have h1 : rest.map
              (fun g2 => if g2.product = p then (⟨g2.product, g2.rows ++ [rd]⟩ : PGroup) else g2) =
              rest.map id := by
            refine List.map_congr_left ?_
            intro g2 hg2
            have hne : g2.product ≠ p := by
              intro hc
              have hhd := (List.nodup_cons.1 hnd).1
              have hmem : g2.product ∈ List.map (fun g => g.product) rest :=
                List.mem_map_of_mem (fun g => g.product) hg2
              rw [hc, ← hp] at hmem
              exact hhd hmem
            simp [hne]
          simpa using h1
        simp only [List.map_cons, List.flatMap_cons, hrest, if_pos hp]
        rw [List.append_assoc, List.append_assoc]
        exact List.Perm.append_left g.rows List.perm_append_comm
      · have hany2 : rest.any (fun g => g.product = p) := by
          rcases List.any_eq_true.1 hany with ⟨g2, hg2, hgp⟩
          rcases List.mem_cons.1 hg2 with rfl | hg2m
          · simp at hgp
            exact absurd hgp hp
          · exact List.any_eq_true.2 ⟨g2, hg2m, hgp⟩
        have ihr := ih (List.nodup_cons.1 hnd).2 hany2
        simp only [List.map_cons, List.flatMap_cons, if_neg hp]
        have h2 : g.rows ++ (rest.flatMap (fun g => g.rows) ++ [rd]) =
            (g.rows ++ rest.flatMap (fun g => g.rows)) ++ [rd] :=
          (List.append_assoc _ _ _).symm
        exact h2 ▸ List.Perm.append_left g.rows ihr
  · rw [List.flatMap_append]
    simp

theorem analyzeProducts_fold (srcCol : String) (avail : List String) :
    ∀ (rows : List (Nat × Row)) (groups0 : List PGroup),
      ((groups0.map (fun g => g.product)).Nodup) →
      (∀ ir ∈ rows, (keptProduct ir.2).isSome) →
      (((rows.foldl
          (fun groups ir =>
            match keptProduct ir.2 with
            | none => groups
            | some p => addToGroups groups p (mkPRowData srcCol avail ir)) groups0).map
        (fun g => g.product)).Nodup ∧
      ((rows.foldl
          (fun groups ir =>
            match keptProduct ir.2 with
            | none => groups
            | some p => addToGroups groups p (mkPRowData srcCol avail ir)) groups0).flatMap
        (fun g => g.rows)).Perm
        ((groups0.flatMap (fun g => g.rows)) ++ rows.map (mkPRowData srcCol avail))) := by
  intro rows
  induction rows with
  | nil => intro groups0 hnd _; exact ⟨hnd, by simp⟩
  | cons ir rest ih =>
    intro groups0 hnd hkept
    have hks : (keptProduct ir.2).isSome := hkept ir (List.mem_cons_self ir rest)
    rcases Option.isSome_iff_exists.1 hks with ⟨p, hp⟩
    rw [List.foldl_cons]
    have hstep : (match keptProduct ir.2 with
        | none => groups0
        | some p => addToGroups groups0 p (mkPRowData srcCol avail ir)) =
        addToGroups groups0 p (mkPRowData srcCol avail ir) := by
      rw [hp]
    rw [hstep]
    have hnd2 : ((addToGroups groups0 p (mkPRowData srcCol avail ir)).map
        (fun g => g.product)).Nodup := by
      rw [addToGroups_products]
      split
      · exact hnd
      · rename_i hany
        rw [List.nodup_append]
        refine ⟨hnd, by simp, ?_⟩
        intro x hx hx2
        simp at hx2
        rcases List.mem_map.1 hx with ⟨g2, hg2, hgp⟩
        refine hany ?_
        rw [List.any_eq_true]
        exact ⟨g2, hg2, by simp [hgp, hx2]⟩
    have ih2 := ih (addToGroups groups0 p (mkPRowData srcCol avail ir)) hnd2
      (fun x hx => hkept x (List.mem_cons_of_mem ir hx))
    refine ⟨ih2.1, ?_⟩
    refine ih2.2.trans ?_
    have hflat := addToGroups_flat groups0 p (mkPRowData srcCol avail ir) hnd
    have := List.Perm.append_right (rest.map (mkPRowData srcCol avail)) hflat
    refine this.trans ?_
    rw [List.append_assoc]
    simp

theorem pushGroups_products_nodup (cfg : DistributionConfig) (df : DF) (source : Source) :
    ((pushGroups cfg df source).map (fun g => g.product)).Nodup := by
  unfold pushGroups analyzeProducts
  refine (analyzeProducts_fold (sourceColumn source) (availableStores cfg df)
    (filteredRows df) [] (by simp) ?_).1
  intro ir hir
  exact (filteredRows_get df ir hir).2

theorem pushGroups_flat_perm (cfg : DistributionConfig) (df : DF) (source : Source) :
    ((pushGroups cfg df source).flatMap (fun g => g.rows)).Perm
      ((filteredRows df).map (mkPRowData (sourceColumn source) (availableStores cfg df))) := by
  unfold pushGroups analyzeProducts
  have h := (analyzeProducts_fold (sourceColumn source) (availableStores cfg df)
    (filteredRows df) [] (by simp) ?_).2
  · simpa using h
  · intro ir hir
    exact (filteredRows_get df ir hir).2

theorem filteredRows_fst_nodup (df : DF) :
    ((filteredRows df).map (fun ir => ir.1)).Nodup := by
  unfold filteredRows
  have hsub : ((df.rows.enum.filter (fun ir => (keptProduct ir.2).isSome)).map
      (fun ir => ir.1)).Sublist (df.rows.enum.map (fun ir => ir.1)) :=
    List.Sublist.map _ (List.filter_sublist _)
  have henum : df.rows.enum.map (fun ir => ir.1) = List.range df.rows.length := by
    exact List.enum_map_fst df.rows
  refine List.Nodup.sublist hsub ?_
  rw [henum]
  exact List.nodup_range df.rows.length

theorem pushGroups_flat_idx_nodup (cfg : DistributionConfig) (df : DF) (source : Source) :
    (((pushGroups cfg df source).flatMap (fun g => g.rows)).map (fun rd => rd.idx)).Nodup := by
  have hperm := (pushGroups_flat_perm cfg df source).map (fun rd => rd.idx)
  refine hperm.nodup_iff.2 ?_
  have : ((filteredRows df).map
      (mkPRowData (sourceColumn source) (availableStores cfg df))).map (fun rd => rd.idx) =
      (filteredRows df).map (fun ir => ir.1) := by
    rw [List.map_map]
    rfl
  rw [this]
  exact filteredRows_fst_nodup df

theorem pushGroups_row_src (cfg : DistributionConfig) (df : DF) (source : Source)
    (g : PGroup) (hg : g ∈ pushGroups cfg df source) (rd : PRowData)
    (hrd : rd ∈ g.rows) :
    ∃ r : Row, df.rows.get? rd.idx = some r ∧ (keptProduct r).isSome ∧
      rd = mkPRowData (sourceColumn source) (availableStores cfg df) (rd.idx, r) := by
  have hmem : rd ∈ (pushGroups cfg df source).flatMap (fun g => g.rows) :=
    List.mem_flatMap.2 ⟨g, hg, hrd⟩
  have hmem2 := (pushGroups_flat_perm cfg df source).mem_iff.1 hmem
  rcases List.mem_map.1 hmem2 with ⟨ir, hir, hrd2⟩
  have hget := filteredRows_get df ir hir
  have hidx : ir.1 = rd.idx := by rw [← hrd2]; rfl
  refine ⟨ir.2, by rw [← hidx]; exact hget.1, hget.2, ?_⟩
  rw [← hrd2]
  unfold mkPRowData
  rw [hidx]

theorem foldl_updAt_untouched (l : List PRowData) (f0 : Nat → Int) (j : Nat)
    (h : ∀ rd ∈ l, rd.idx ≠ j) :
    (l.foldl (fun f rd => updAt f rd.idx rd.srcQty) f0) j = f0 j := by
  refine foldlPreservesMem (P := fun f => f j = f0 j) ?_ f0 rfl
  intro f rd hrd hf
  unfold updAt
  rw [if_neg (fun hj => h rd hrd hj.symm)]
  exact hf

theorem foldl_updAt_value :
    ∀ (l : List PRowData) (f0 : Nat → Int), ((l.map (fun rd => rd.idx)).Nodup) →
      ∀ rd ∈ l, (l.foldl (fun f rd => updAt f rd.idx rd.srcQty) f0) rd.idx = rd.srcQty := by
  intro l
  induction l with
  | nil => intro f0 _ rd h; cases h
  | cons a rest ih =>
    intro f0 hnd rd hrd
    rw [List.foldl_cons]
    rcases List.mem_cons.1 hrd with rfl | hmem
    · have hrest : ∀ rd2 ∈ rest, rd2.idx ≠ rd.idx := by
        intro rd2 h2 hc
        have hhd := (List.nodup_cons.1 hnd).1
        have hmem : rd2.idx ∈ rest.map (fun rd => rd.idx) :=
          List.mem_map_of_mem (fun rd => rd.idx) h2
        rw [hc] at hmem
        exact hhd hmem
      rw [foldl_updAt_untouched rest _ rd.idx hrest]
      unfold updAt
      rw [if_pos rfl]
    · exact ih _ (List.nodup_cons.1 hnd).2 rd hmem

theorem initPushState_remaining (cfg : DistributionConfig) (df : DF) (source : Source)
    (g : PGroup) (hg : g ∈ pushGroups cfg df source) (rd : PRowData)
    (hrd : rd ∈ g.rows) :
    (initPushState (pushGroups cfg df source)).remaining rd.idx = rd.srcQty := by
  unfold initPushState
  have hmem : rd ∈ (pushGroups cfg df source).flatMap (fun g => g.rows) :=
    List.mem_flatMap.2 ⟨g, hg, hrd⟩
  exact foldl_updAt_value _ _ (pushGroups_flat_idx_nodup cfg df source) rd hmem

theorem remInv_addSkip (R0 : Nat → Int) (st : PushState) (i : Nat) (s : SkippedStore)
    (h : RemInv R0 st) : RemInv R0 (addSkip st i s) := h

theorem remInv_setReason (R0 : Nat → Int) (st : PushState) (i : Nat) (m : String)
    (h : RemInv R0 st) : RemInv R0 (setReason st i m) := by
  intro j
  rw [setReason_remaining, setReason_transfers]
  exact h j

theorem remInv_setMinFlag (R0 : Nat → Int) (st : PushState) (i : Nat)
    (h : RemInv R0 st) : RemInv R0 (setMinFlag st i) := h

theorem addTransfer_at_self (st : PushState) (i : Nat) (t : Transfer) :
    (addTransfer st i t).remaining i = st.remaining i - 1 ∧
    (addTransfer st i t).transfers i = st.transfers i ++ [t] := by
  unfold addTransfer updAt
  dsimp only
  rw [if_pos rfl, if_pos rfl]
  exact ⟨rfl, rfl⟩

theorem addTransfer_at_other (st : PushState) (i : Nat) (t : Transfer) (j : Nat)
    (hj : j ≠ i) :
    (addTransfer st i t).remaining j = st.remaining j ∧
    (addTransfer st i t).transfers j = st.transfers j := by
  unfold addTransfer updAt
  dsimp only
  rw [if_neg hj, if_neg hj]
  exact ⟨rfl, rfl⟩

theorem remInv_addTransfer (R0 : Nat → Int) (st : PushState) (i : Nat)
    (sn rc : String) (h : RemInv R0 st) (hpos : 0 < st.remaining i) :
    RemInv R0 (addTransfer st i ⟨sn, rc, 1⟩) := by
  intro j
  by_cases hj : j = i
  · rw [hj]
    simp only [(addTransfer_at_self st i (⟨sn, rc, 1⟩ : Transfer)).1,
      (addTransfer_at_self st i (⟨sn, rc, 1⟩ : Transfer)).2]
    have h1 := (h i).1
    have h2 := (h i).2.1
    refine ⟨?_, ?_, ?_⟩
    · rw [List.length_append, List.length_singleton]
      push_cast
      omega
    · intro h0
      omega
    · intro t ht
      rcases List.mem_append.1 ht with hm | hm
      · exact (h i).2.2 t hm
      · simp at hm
        rw [hm]
  · rw [(addTransfer_at_other st i (⟨sn, rc, 1⟩ : Transfer) j hj).1,
      (addTransfer_at_other st i (⟨sn, rc, 1⟩ : Transfer) j hj).2]
    exact h j

theorem remInv_processStore (R0 : Nat → Int) (cfg : DistributionConfig)
    (srcName : String) (g : PGroup) (availCnt : Nat) (st : PushState) (store : String)
    (h : RemInv R0 st) : RemInv R0 (processStore cfg srcName g availCnt st store) := by
  unfold processStore
  by_cases hexcl : store ∈ cfg.excluded_stores
  · rw [if_pos hexcl]
    refine foldlPreserves (P := RemInv R0) ?_ g.rows st h
    intro s rd hs
    split
    · exact remInv_addSkip R0 s rd.idx _ hs
    · exact hs
  · rw [if_neg hexcl]
    by_cases hrule : storeSizesCount g.rows store ≤ 1 ∧ 4 ≤ g.rows.length
    · rw [if_pos hrule]
      by_cases hav : availCnt < 3
      · rw [if_pos hav]
        refine foldlPreserves (P := RemInv R0) ?_ g.rows st h
        intro s rd hs
        split
        · exact remInv_addSkip R0 _ rd.idx _
            (remInv_setMinFlag R0 _ rd.idx (remInv_setReason R0 s rd.idx _ hs))
        · exact hs
      · rw [if_neg hav]
        dsimp only
        split
        · refine foldlPreserves (P := RemInv R0) ?_ _ st h
          intro s rd hs
          split
          · rename_i hpos
            exact remInv_addTransfer R0 s rd.idx _ _ hs hpos
          · exact hs
        · exact h
    · rw [if_neg hrule]
      refine foldlPreserves (P := RemInv R0) ?_ g.rows st h
      intro s rd hs
      dsimp only
      split
      · exact remInv_addSkip R0 s rd.idx _ hs
      · split
        · rename_i hpos
          exact remInv_addTransfer R0 s rd.idx _ _ hs hpos
        · exact hs

theorem remInv_pushFinal (cfg : DistributionConfig) (sales : Option SalesPriorityData)
    (df : DF) (source : Source) :
    RemInv (initPushState (pushGroups cfg df source)).remaining
      (pushFinal cfg sales df source) := by
  unfold pushFinal
  refine foldlPreserves (P := RemInv _) ?_ _ _ ?_
  · intro st g hst
    unfold processProduct
    refine foldlPreserves (P := RemInv _) ?_ _ st hst
    intro s store hs
    exact remInv_processStore _ cfg _ g _ s store hs
  · intro i
    exact ⟨by simp [initPushState], fun h => h, by intro t ht; cases ht⟩

/-- On a transfer list whose quantities are all 1, the quantity sum is
the list length. -/
theorem sum_quantities_of_ones :
    ∀ (l : List Transfer), (∀ t ∈ l, t.quantity = 1) →
      ((l.map (fun t => t.quantity)).sum) = (l.length : Int) := by
  intro l
  induction l with
  | nil => intro _; rfl
  | cons t rest ih =>
    intro h
    rw [List.map_cons, List.sum_cons, h t (List.mem_cons_self t rest),
      ih (fun t2 h2 => h t2 (List.mem_cons_of_mem t h2)), List.length_cons]
    push_cast
    ring

/-- The per-sender excess quantities of the sorted above-threshold list
sum to the row's total excess. -/
theorem sortedExcess_sum (cfg : DistributionConfig) (inv : List (String × Int)) :
    (((List.insertionSort invDesc
      (inv.filter (fun p => cfg.balance_threshold < p.2))).map
        (fun sq => max (sq.2 - cfg.balance_threshold) 0)).sum) =
      rowTotalExcess cfg inv := by
  have hperm := (List.perm_insertionSort invDesc
    (inv.filter (fun p => cfg.balance_threshold < p.2))).map
      (fun sq => max (sq.2 - cfg.balance_threshold) 0)
  rw [hperm.sum_eq]
  unfold rowTotalExcess
  refine congrArg List.sum (List.map_congr_left ?_)
  intro p hp
  have h2 := (List.mem_filter.1 hp).2
  simp only [decide_eq_true_eq] at h2
  exact max_eq_left (by omega)

/-- C1 (corrected).  Push engine: a row preview's total transferred
quantity is at most the row's source-pool quantity at the start of the
pass, provided that quantity is non-negative (the counterexample shows a
negative source cell makes the bound fail: nothing is transferred, yet
0 exceeds the negative start quantity).  Rebalancing engine: a row
preview's total transferred quantity equals the row's total computed
excess (sum of quantity minus threshold over the above-threshold stores
of the row inventory), hence in particular never exceeds it. -/
theorem c1_row_quantity_bound (cfg : DistributionConfig)
    (sales : Option SalesPriorityData) (df : DF) (source : Source) (hdr : Nat)
    (i : Nat) (r : Row) (hget : df.rows.get? i = some r) :
    (∀ p ∈ pushPreview cfg sales df source hdr, p.row_index = hdr + 3 + i →
      0 ≤ r.qty (sourceColumn source) →
        p.total_quantity ≤ r.qty (sourceColumn source)) ∧
    (∀ p ∈ balPreview cfg sales df hdr, p.row_index = hdr + 3 + i →
      p.total_quantity =
        rowTotalExcess cfg
          (rowInventory (rowProductStores cfg sales (availableStores cfg df) r) r)) := by
  constructor
  · intro p hp hri hnn
    unfold pushPreview at hp
    have hp2 := (List.perm_insertionSort
      (fun p q : TransferPreview => p.row_index ≤ q.row_index) _).mem_iff.1 hp
    rcases List.mem_flatMap.1 hp2 with ⟨g, hg, hpg⟩
    rcases List.mem_map.1 hpg with ⟨rd, hrd, rfl⟩
    have hrow : (mkPreview cfg sales (availableStores cfg df) hdr
        (pushFinal cfg sales df source) g rd).row_index = hdr + 3 + rd.idx := rfl
    rw [hrow] at hri
    have hidx : rd.idx = i := by omega
    rcases pushGroups_row_src cfg df source g hg rd hrd with ⟨r2, hget2, _, hrdeq⟩
    rw [hidx, hget] at hget2
    have hr2 : r2 = r := by injection hget2 with h2; exact h2.symm
    rw [hr2] at hrdeq
    have hsrc : rd.srcQty = r.qty (sourceColumn source) :=
      congrArg PRowData.srcQty hrdeq
    have hI := remInv_pushFinal cfg sales df source rd.idx
    have hR0 := initPushState_remaining cfg df source g hg rd hrd
    have htot : (mkPreview cfg sales (availableStores cfg df) hdr
        (pushFinal cfg sales df source) g rd).total_quantity =
        (((pushFinal cfg sales df source).transfers rd.idx).length : Int) :=
      sum_quantities_of_ones _ hI.2.2
    rw [htot]
    have h1 := hI.1
    have h2 := hI.2.1
    rw [hR0, hsrc] at h1 h2
    have h2p := h2 hnn
    omega
  · intro p hp hri
    unfold balPreview at hp
    rcases balRows_shape cfg sales (availableStores cfg df)
      (analyzeBProducts (availableStores cfg df) (filteredRows df)) hdr
      (filteredRows df) _ p hp with ⟨st2, ir, hmem, rfl, _⟩
    have hparts := processRow_parts cfg sales (availableStores cfg df)
      (analyzeBProducts (availableStores cfg df) (filteredRows df)) hdr st2 ir
    have hidx : ir.1 = i := by
      have := hparts.2.2
      rw [hri] at this
      omega
    have hget2 := (filteredRows_get df ir hmem).1
    rw [hidx, hget] at hget2
    have hr2 : ir.2 = r := by injection hget2 with h2; exact h2.symm
    unfold TransferPreview.total_quantity
    rw [hparts.1, hr2, senderWalk_sum, sortedExcess_sum]

/-- C1 counterexample: on the concrete table whose only row has a
negative source cell, the push preview of that row violates the
unconditional bound total transferred quantity at most start-of-pass
source quantity. -/
theorem c1_row_quantity_bound_counterexample :
    c1cdf.rows.get? 0 = some c1crow ∧
    ¬ (∀ p ∈ pushPreview c1ccfg none c1cdf Source.stock 0, p.row_index = 0 + 3 + 0 →
        p.total_quantity ≤ c1crow.qty (sourceColumn Source.stock)) := by
  decide

/-- C1 witness: the bound of the amended claim evaluated on the concrete
one-row table, for both engines. -/
theorem c1_row_quantity_bound_witness :
    (∀ p ∈ pushPreview c1wcfg none c1wdf Source.stock 0, p.row_index = 0 + 3 + 0 →
      0 ≤ c1wrow.qty (sourceColumn Source.stock) →
        p.total_quantity ≤ c1wrow.qty (sourceColumn Source.stock)) ∧
    (∀ p ∈ balPreview c1wcfg none c1wdf 0, p.row_index = 0 + 3 + 0 →
      p.total_quantity =
        rowTotalExcess c1wcfg
          (rowInventory (rowProductStores c1wcfg none (availableStores c1wcfg c1wdf)
            c1wrow) c1wrow)) :=
  c1_row_quantity_bound c1wcfg none c1wdf Source.stock 0 0 c1wrow (by decide)

theorem addSkip_reason (st : PushState) (i : Nat) (s : SkippedStore) :
    (addSkip st i s).reason = st.reason := rfl

theorem addSkip_minFlag (st : PushState) (i : Nat) (s : SkippedStore) :
    (addSkip st i s).minFlag = st.minFlag := rfl

theorem addSkip_skipped_mem (st : PushState) (i : Nat) (s : SkippedStore) (j : Nat)
    (x : SkippedStore) (h : x ∈ st.skipped j) : x ∈ (addSkip st i s).skipped j := by
  show x ∈ updAt st.skipped i (st.skipped i ++ [s]) j
  unfold updAt
  by_cases hj : j = i
  · rw [if_pos hj]
    rw [hj] at h
    exact List.mem_append_left _ h
  · rw [if_neg hj]
    exact h

theorem addSkip_skipped_self (st : PushState) (i : Nat) (s : SkippedStore) :
    s ∈ (addSkip st i s).skipped i := by
  show s ∈ updAt st.skipped i (st.skipped i ++ [s]) i
  unfold updAt
  rw [if_pos rfl]
  exact List.mem_append_right _ (List.mem_singleton.2 rfl)

theorem setMinFlag_skipped (st : PushState) (i : Nat) :
    (setMinFlag st i).skipped = st.skipped := rfl

theorem setMinFlag_reason (st : PushState) (i : Nat) :
    (setMinFlag st i).reason = st.reason := rfl

theorem setMinFlag_self (st : PushState) (i : Nat) :
    (setMinFlag st i).minFlag i = true := by
  show updAt st.minFlag i true i = true
  unfold updAt
  rw [if_pos rfl]

theorem setMinFlag_mono (st : PushState) (i j : Nat) (h : st.minFlag j = true) :
    (setMinFlag st i).minFlag j = true := by
  show updAt st.minFlag i true j = true
  unfold updAt
  by_cases hj : j = i
  · rw [if_pos hj]
  · rw [if_neg hj]
    exact h

theorem setReason_skipped (st : PushState) (i : Nat) (m : String) :
    (setReason st i m).skipped = st.skipped := by
  unfold setReason
  split <;> rfl

theorem setReason_minFlag (st : PushState) (i : Nat) (m : String) :
    (setReason st i m).minFlag = st.minFlag := by
  unfold setReason
  split <;> rfl

theorem setReason_some_mono (st : PushState) (i : Nat) (m : String) (j : Nat)
    (v : String) (h : st.reason j = some v) : (setReason st i m).reason j = some v := by
  unfold setReason
  split
  · exact h
  · rename_i hnone
    show updAt st.reason i (some m) j = some v
    unfold updAt
    by_cases hj : j = i
    · rw [hj, hnone] at h
      cases h
    · rw [if_neg hj]
      exact h

theorem setReason_none_set (st : PushState) (i : Nat) (m : String)
    (h : st.reason i = none) : (setReason st i m).reason i = some m := by
  unfold setReason
  split
  · rename_i v hv
    rw [hv] at h
    cases h
  · show updAt st.reason i (some m) i = some m
    unfold updAt
    rw [if_pos rfl]

theorem setReason_other (st : PushState) (i : Nat) (m : String) (j : Nat)
    (hj : j ≠ i) : (setReason st i m).reason j = st.reason j := by
  unfold setReason
  split
  · rfl
  · show updAt st.reason i (some m) j = st.reason j
    unfold updAt
    rw [if_neg hj]

/-- The min-sizes skip walk never touches the transfers ledger. -/
theorem minFold_transfers (store m : String) (l : List PRowData) (st : PushState) :
    (l.foldl
      (fun st rd =>
        if lookupQ rd.storeQ store = 0 then
          addSkip (setMinFlag (setReason st rd.idx m) rd.idx)
            rd.idx ⟨store, "min_sizes", 0⟩
        else st)
      st).transfers = st.transfers := by
  refine foldlPreserves (P := fun s : PushState => s.transfers = st.transfers) ?_ l st rfl
  intro s rd hs
  by_cases hq : lookupQ rd.storeQ store = 0
  · dsimp only
    rw [if_pos hq, addSkip_transfers, setMinFlag_transfers, setReason_transfers]
    exact hs
  · dsimp only
    rw [if_neg hq]
    exact hs

/-- Reason-value preservation along the min-sizes skip walk. -/
theorem minFold_some_mono (store m : String) (i : Nat) (v : String) :
    ∀ (l : List PRowData) (s : PushState), s.reason i = some v →
      (l.foldl
        (fun st rd =>
          if lookupQ rd.storeQ store = 0 then
            addSkip (setMinFlag (setReason st rd.idx m) rd.idx)
              rd.idx ⟨store, "min_sizes", 0⟩
          else st)
        s).reason i = some v := by
  intro l s h
  refine foldlPreserves (P := fun s : PushState => s.reason i = some v) ?_ l s h
  intro s rd hs
  by_cases hq : lookupQ rd.storeQ store = 0
  · dsimp only
    rw [if_pos hq, addSkip_reason, setMinFlag_reason]
    exact setReason_some_mono s rd.idx m i v hs
  · dsimp only
    rw [if_neg hq]
    exact hs

/-- Min-flag and skip-record preservation along the min-sizes skip walk. -/
theorem minFold_preserve2 (store m : String) (i : Nat) :
    ∀ (l : List PRowData) (s : PushState),
      s.minFlag i = true →
      (⟨store, "min_sizes", 0⟩ : SkippedStore) ∈ s.skipped i →
      (l.foldl
        (fun st rd =>
          if lookupQ rd.storeQ store = 0 then
            addSkip (setMinFlag (setReason st rd.idx m) rd.idx)
              rd.idx ⟨store, "min_sizes", 0⟩
          else st)
        s).minFlag i = true ∧
      (⟨store, "min_sizes", 0⟩ : SkippedStore) ∈
        (l.foldl
          (fun st rd =>
            if lookupQ rd.storeQ store = 0 then
              addSkip (setMinFlag (setReason st rd.idx m) rd.idx)
                rd.idx ⟨store, "min_sizes", 0⟩
            else st)
          s).skipped i := by
  intro l s h1 h2
  refine foldlPreserves
    (P := fun s : PushState => s.minFlag i = true ∧
      (⟨store, "min_sizes", 0⟩ : SkippedStore) ∈ s.skipped i) ?_ l s ⟨h1, h2⟩
  intro s rd hs
  by_cases hq : lookupQ rd.storeQ store = 0
  · dsimp only
    rw [if_pos hq]
    constructor
    · rw [addSkip_minFlag]
      refine setMinFlag_mono _ rd.idx i ?_
      rw [setReason_minFlag]
      exact hs.1
    · refine addSkip_skipped_mem _ rd.idx _ i _ ?_
      rw [setMinFlag_skipped, setReason_skipped]
      exact hs.2
  · dsimp only
    rw [if_neg hq]
    exact hs

/-- Each store-lacking row of the min-sizes skip walk ends with the
min-sizes flag set and a min_sizes skip record. -/
theorem minFold_facts (store m : String) :
    ∀ (l : List PRowData) (s : PushState) (rd : PRowData), rd ∈ l →
      lookupQ rd.storeQ store = 0 →
      (l.foldl
        (fun st rd =>
          if lookupQ rd.storeQ store = 0 then
            addSkip (setMinFlag (setReason st rd.idx m) rd.idx)
              rd.idx ⟨store, "min_sizes", 0⟩
          else st)
        s).minFlag rd.idx = true ∧
      (⟨store, "min_sizes", 0⟩ : SkippedStore) ∈
        (l.foldl
          (fun st rd =>
            if lookupQ rd.storeQ store = 0 then
              addSkip (setMinFlag (setReason st rd.idx m) rd.idx)
                rd.idx ⟨store, "min_sizes", 0⟩
            else st)
          s).skipped rd.idx := by
  intro l
  induction l with
  | nil => intro s rd hmem _; cases hmem
  | cons a rest ih =>
    intro s rd hmem hq
    rw [List.foldl_cons]
    rcases List.mem_cons.1 hmem with heq | hmem2
    · rw [heq]
      have hqa : lookupQ a.storeQ store = 0 := heq ▸ hq
      refine minFold_preserve2 store m a.idx rest _ ?_ ?_
      · dsimp only
        rw [if_pos hqa, addSkip_minFlag]
        exact setMinFlag_self _ a.idx
      · dsimp only
        rw [if_pos hqa]
        exact addSkip_skipped_self _ a.idx _
    · exact ih _ rd hmem2 hq

/-- A store-lacking row with no prior skip reason ends the min-sizes
skip walk with exactly the shortfall message, when row indexes are
pairwise distinct. -/
theorem minFold_reason (store m : String) :
    ∀ (l : List PRowData) (s : PushState) (rd : PRowData),
      ((l.map (fun rd => rd.idx)).Nodup) → rd ∈ l →
      lookupQ rd.storeQ store = 0 → s.reason rd.idx = none →
      (l.foldl
        (fun st rd =>
          if lookupQ rd.storeQ store = 0 then
            addSkip (setMinFlag (setReason st rd.idx m) rd.idx)
              rd.idx ⟨store, "min_sizes", 0⟩
          else st)
        s).reason rd.idx = some m := by
  intro l
  induction l with
  | nil => intro s rd _ hmem; cases hmem
  | cons a rest ih =>
    intro s rd hnd hmem hq hnone
    rw [List.foldl_cons]
    rcases List.mem_cons.1 hmem with heq | hmem2
    · rw [heq]
      have hqa : lookupQ a.storeQ store = 0 := heq ▸ hq
      have hnonea : s.reason a.idx = none := heq ▸ hnone
      refine minFold_some_mono store m a.idx m rest _ ?_
      dsimp only
      rw [if_pos hqa, addSkip_reason, setMinFlag_reason]
      exact setReason_none_set s a.idx m hnonea
    · have hane : rd.idx ≠ a.idx := by
        intro hc
        have hm : rd.idx ∈ rest.map (fun rd => rd.idx) :=
          List.mem_map_of_mem (fun rd => rd.idx) hmem2
        rw [hc] at hm
        exact (List.nodup_cons.1 hnd).1 hm
      have hnone2 : ((fun st rd =>
          if lookupQ rd.storeQ store = 0 then
            addSkip (setMinFlag (setReason st rd.idx m) rd.idx)
              rd.idx ⟨store, "min_sizes", 0⟩
          else st) s a).reason rd.idx = none := by
        dsimp only
        by_cases hqa : lookupQ a.storeQ store = 0
        · rw [if_pos hqa, addSkip_reason, setMinFlag_reason,
            setReason_other s a.idx m rd.idx hane]
          exact hnone
        · rw [if_neg hqa]
          exact hnone
      exact ih _ rd (List.nodup_cons.1 hnd).2 hmem2 hq hnone2

/-- The all-sizes transfer walk appends exactly one unit transfer at
every walked row and leaves every other row untouched, when row indexes
are pairwise distinct and every walked row has remaining stock. -/
theorem transferFold_parts (srcName store : String) :
    ∀ (l : List PRowData) (st : PushState),
      ((l.map (fun rd => rd.idx)).Nodup) →
      (∀ rd ∈ l, 0 < st.remaining rd.idx) →
      (∀ rd ∈ l,
        (l.foldl
          (fun st rd =>
            if 0 < st.remaining rd.idx then addTransfer st rd.idx ⟨srcName, store, 1⟩
            else st)
          st).transfers rd.idx = st.transfers rd.idx ++ [⟨srcName, store, 1⟩]) ∧
      (∀ j : Nat, (∀ rd ∈ l, rd.idx ≠ j) →
        (l.foldl
          (fun st rd =>
            if 0 < st.remaining rd.idx then addTransfer st rd.idx ⟨srcName, store, 1⟩
            else st)
          st).transfers j = st.transfers j) := by
  intro l
  induction l with
  | nil =>
    intro st _ _
    exact ⟨fun rd h => absurd h (List.not_mem_nil rd), fun j _ => rfl⟩
  | cons a rest ih =>
    intro st hnd hpos
    have hnd2 := (List.nodup_cons.1 hnd).2
    have hane : ∀ rd ∈ rest, rd.idx ≠ a.idx := by
      intro rd h hc
      have hm : rd.idx ∈ rest.map (fun rd => rd.idx) :=
        List.mem_map_of_mem (fun rd => rd.idx) h
      rw [hc] at hm
      exact (List.nodup_cons.1 hnd).1 hm
    have hstep : (if 0 < st.remaining a.idx then
          addTransfer st a.idx (⟨srcName, store, 1⟩ : Transfer)
        else st) = addTransfer st a.idx ⟨srcName, store, 1⟩ :=
      if_pos (hpos a (List.mem_cons_self a rest))
    have hpos2 : ∀ rd ∈ rest,
        0 < (addTransfer st a.idx ⟨srcName, store, 1⟩).remaining rd.idx := by
      intro rd h
      rw [(addTransfer_at_other st a.idx (⟨srcName, store, 1⟩ : Transfer) rd.idx
        (hane rd h)).1]
      exact hpos rd (List.mem_cons_of_mem a h)
    have hih := ih (addTransfer st a.idx ⟨srcName, store, 1⟩) hnd2 hpos2
    constructor
    · intro rd hmem
      rw [List.foldl_cons, hstep]
      rcases List.mem_cons.1 hmem with heq | hmem2
      · rw [heq, hih.2 a.idx hane,
          (addTransfer_at_self st a.idx (⟨srcName, store, 1⟩ : Transfer)).2]
      · rw [hih.1 rd hmem2,
          (addTransfer_at_other st a.idx (⟨srcName, store, 1⟩ : Transfer) rd.idx
            (hane rd hmem2)).2]
    · intro j hj
      rw [List.foldl_cons, hstep,
        hih.2 j (fun rd h => hj rd (List.mem_cons_of_mem a h)),
        (addTransfer_at_other st a.idx (⟨srcName, store, 1⟩ : Transfer) j
          (Ne.symm (hj a (List.mem_cons_self a rest)))).2]

/-- C2 (corrected).  When the completeness rule is active for a store
(non-excluded, at most 1 size held, family of at least 4 rows) and the
product-level available-sizes count availCnt (the number of family sizes
with source stock, computed once at analysis time) is at least 3, the
store step is all-or-nothing over the sizes available to send to this
store (rows with source stock the store lacks and remaining stock):
fewer than 3 such sizes transfer nothing and — contrary to the claim —
record no skip; at least 3 such sizes each receive exactly one unit,
other rows untouched.  Only when availCnt itself is under 3 does the
step transfer nothing and record the min_sizes skip with the shortfall
message on every store-lacking row. -/
theorem c2_completeness_all_or_nothing (cfg : DistributionConfig) (srcName : String)
    (g : PGroup) (availCnt : Nat) (st : PushState) (store : String)
    (hx : store ∉ cfg.excluded_stores)
    (hrule : storeSizesCount g.rows store ≤ 1 ∧ 4 ≤ g.rows.length)
    (hnd : ((g.rows.map (fun rd => rd.idx)).Nodup)) :
    (availCnt < 3 →
      (∀ i : Nat, (processStore cfg srcName g availCnt st store).transfers i =
        st.transfers i) ∧
      (∀ rd ∈ g.rows, lookupQ rd.storeQ store = 0 →
        (processStore cfg srcName g availCnt st store).minFlag rd.idx = true ∧
        (⟨store, "min_sizes", 0⟩ : SkippedStore) ∈
          (processStore cfg srcName g availCnt st store).skipped rd.idx ∧
        (st.reason rd.idx = none →
          (processStore cfg srcName g availCnt st store).reason rd.idx =
            some (minSizesMsg availCnt)))) ∧
    (3 ≤ availCnt →
      (sizesAvailableToSendSpec g st store < 3 →
        processStore cfg srcName g availCnt st store = st) ∧
      (3 ≤ sizesAvailableToSendSpec g st store →
        (∀ rd ∈ g.rows, 0 < rd.srcQty → lookupQ rd.storeQ store = 0 →
          0 < st.remaining rd.idx →
          (processStore cfg srcName g availCnt st store).transfers rd.idx =
            st.transfers rd.idx ++ [⟨srcName, store, 1⟩]) ∧
        (∀ j : Nat,
          (∀ rd ∈ g.rows, rd.idx = j →
            ¬ (0 < rd.srcQty ∧ lookupQ rd.storeQ store = 0 ∧
              0 < st.remaining rd.idx)) →
          (processStore cfg srcName g availCnt st store).transfers j =
            st.transfers j))) := by
  unfold processStore
  rw [if_neg hx, if_pos hrule]
  constructor
  · intro hlt
    rw [if_pos hlt]
    constructor
    · intro i
      rw [minFold_transfers store (minSizesMsg availCnt) g.rows st]
    · intro rd hmem hq
      refine ⟨(minFold_facts store (minSizesMsg availCnt) g.rows st rd hmem hq).1,
        (minFold_facts store (minSizesMsg availCnt) g.rows st rd hmem hq).2, ?_⟩
      intro hnone
      exact minFold_reason store (minSizesMsg availCnt) g.rows st rd hnd hmem hq hnone
  · intro hge
    have hlt2 : ¬ availCnt < 3 := by omega
    rw [if_neg hlt2]
    dsimp only
    constructor
    · intro hsp
      have h3 : ¬ 3 ≤ (g.rows.filter
          (fun rd => 0 < rd.srcQty ∧ lookupQ rd.storeQ store = 0 ∧
            0 < st.remaining rd.idx)).length := by
        unfold sizesAvailableToSendSpec at hsp
        omega
      rw [if_neg h3]
    · intro hsp
      have h3 : 3 ≤ (g.rows.filter
          (fun rd => 0 < rd.srcQty ∧ lookupQ rd.storeQ store = 0 ∧
            0 < st.remaining rd.idx)).length := by
        unfold sizesAvailableToSendSpec at hsp
        exact hsp
      rw [if_pos h3]
      have hndf : (((g.rows.filter
          (fun rd => 0 < rd.srcQty ∧ lookupQ rd.storeQ store = 0 ∧
            0 < st.remaining rd.idx)).map (fun rd => rd.idx)).Nodup) :=
        List.Nodup.sublist (List.Sublist.map _ (List.filter_sublist g.rows)) hnd
      have hposf : ∀ rd ∈ (g.rows.filter
          (fun rd => 0 < rd.srcQty ∧ lookupQ rd.storeQ store = 0 ∧
            0 < st.remaining rd.idx)), 0 < st.remaining rd.idx := by
        intro rd h
        have h2 := (List.mem_filter.1 h).2
        simp only [decide_eq_true_eq] at h2
        exact h2.2.2
      have hparts := transferFold_parts srcName store
        (g.rows.filter
          (fun rd => 0 < rd.srcQty ∧ lookupQ rd.storeQ store = 0 ∧
            0 < st.remaining rd.idx)) st hndf hposf
      constructor
      · intro rd hmem hsrc hq hrem
        refine hparts.1 rd (List.mem_filter.2 ⟨hmem, ?_⟩)
        simp only [decide_eq_true_eq]
        exact ⟨hsrc, hq, hrem⟩
      · intro j hj
        refine hparts.2 j ?_
        intro rd h
        have hg := (List.mem_filter.1 h).1
        have hc := (List.mem_filter.1 h).2
        simp only [decide_eq_true_eq] at hc
        intro hc2
        exact hj rd hg hc2 hc

/-- C2 counterexample: the completeness rule is active (family of 4
rows, store holds 1 size) and fewer than 3 sizes are available to send,
yet the full push preview transfers nothing AND records no skip reason,
no min-sizes flag and no skipped store on any row — refuting the claim
that a skip reason referencing the shortfall count is recorded in this
situation (the source only records it when the product-level stocked
count is under 3, here 3). -/
theorem c2_completeness_counterexample :
    (∀ g ∈ pushGroups c2ccfg c2cdf Source.stock,
      storeSizesCount g.rows "11111 A" ≤ 1 ∧ 4 ≤ g.rows.length ∧
      sizesAvailableToSendSpec g (initPushState (pushGroups c2ccfg c2cdf Source.stock))
        "11111 A" < 3) ∧
    (pushGroups c2ccfg c2cdf Source.stock).length = 1 ∧
    (∀ p ∈ pushPreview c2ccfg none c2cdf Source.stock 0,
      p.transfers = [] ∧ p.skip_reason = none ∧ p.min_sizes_skipped = false ∧
      p.skipped_stores = []) ∧
    (pushPreview c2ccfg none c2cdf Source.stock 0).length = 4 := by
  decide

/-- C2 witness: with the rule active, 4 of 4 sizes available to send and
4 stocked sizes, the store step gives the first and the last size of the
concrete group exactly one unit each. -/
theorem c2_completeness_all_or_nothing_witness :
    (processStore c2wcfg "Сток" c2wg 4 c2wst "11111 A").transfers 0 =
      c2wst.transfers 0 ++ [⟨"Сток", "11111 A", 1⟩] ∧
    (processStore c2wcfg "Сток" c2wg 4 c2wst "11111 A").transfers 3 =
      c2wst.transfers 3 ++ [⟨"Сток", "11111 A", 1⟩] :=
  ⟨(((c2_completeness_all_or_nothing c2wcfg "Сток" c2wg 4 c2wst "11111 A"
      (by decide) (by decide) (by decide)).2 (by decide)).2 (by decide)).1
      ⟨0, "S", 1, [("11111 A", 0)]⟩ (by decide) (by decide) (by decide) (by decide),
   (((c2_completeness_all_or_nothing c2wcfg "Сток" c2wg 4 c2wst "11111 A"
      (by decide) (by decide) (by decide)).2 (by decide)).2 (by decide)).1
      ⟨3, "XL", 1, [("11111 A", 0)]⟩ (by decide) (by decide) (by decide) (by decide)⟩
